import Mathlib

/-
  Verification of thames (a concurrent player pipeline for the BBC Sound
  Effects collection) against its natural-language specification.

  The Go program is shallowly embedded below.  Pure data and the per-item
  control flow of the functions fileExists, downloadFile, queryDatabase,
  downloader, singlePlayersRouter and multiPlayersRouter are translated into
  executable Lean functions.  Effects of the outer world (the filesystem,
  the network, stat errors) are threaded explicitly: the filesystem is an
  association list from paths to file states, and each intake item carries
  an oracle that fixes the outcome of its stat call and of its fetch.
  Channels are identified by numbers; every create, send and close on a
  player channel is recorded in an event log, so that lifecycle claims are
  statements about the log.  Because route and close on the multi router
  hold a mutex in the source, each route or close call is modelled as one
  atomic state transition; an arbitrary concurrent schedule is an arbitrary
  list of such calls.
-/

namespace Thames

/-- Sound mirrors the Go struct sound: description, filename in the index,
full path (set by queryDatabase), originating query and duration. -/
structure sound where
  descr : String
  fname : String
  fpath : String
  query : String
  secs : Int
deriving DecidableEq

/-- Row mirrors one result row of the sounds table: location, description,
seconds. -/
structure row where
  location : String
  description : String
  secs : Int
deriving DecidableEq

/-- State of one path in the local sound cache: a completely written file
or a half written file left behind by a fetch that failed mid copy. -/
inductive FileState where
  | complete
  | halfWritten
deriving DecidableEq

/-- The local filesystem under the sounds directory, newest entry first. -/
abbrev FS := List (String × FileState)

/-- Lookup of a path in the filesystem model. -/
def fsGet (fs : FS) (p : String) : Option FileState :=
  match fs with
  | [] => none
  | e :: rest => if e.1 = p then some e.2 else fsGet rest p

/-- Writing a path: os.Create truncates, so the newest entry wins. -/
def fsSet (fs : FS) (p : String) (st : FileState) : FS :=
  (p, st) :: fs

/-- Outcome oracle for one call of downloadFile: the fetch succeeds, the
http.Get fails, the response status is not 200, os.Create fails, or the
io.Copy fails after the file was created. -/
inductive FetchResult where
  | ok
  | netErr
  | badStatus
  | createErr
  | copyErr
deriving DecidableEq

/-- Oracle for the externally determined outcomes met while the downloader
processes one item: whether os.Stat fails with an error other than
not-exist, and how the fetch would go if attempted. -/
structure Oracle where
  statErr : Bool
  fetch : FetchResult
deriving DecidableEq

/-- Go source, function soundPath: filepath.Join of the sounds directory
and the file name. -/
def soundPath (soundsDir fname : String) : String :=
  soundsDir ++ "/" ++ fname

/-- Go source, constant AssetsRoot prepended by assetUrl. -/
def assetUrl (asset : String) : String :=
  "http://bbcsfx.acropolis.org.uk/assets/" ++ asset

/-- Go source, function fileExists: returns (true, nil) when stat succeeds,
(false, err) on a stat error other than not-exist, (false, nil) otherwise.
The pair is (exists, error present). -/
def fileExists (fs : FS) (statErr : Bool) (fpath : String) : Bool × Bool :=
  if statErr then (false, true)
  else ((fsGet fs fpath).isSome, false)

/-- Go source, function downloadFile: fetches a url straight into fpath.
On success the file is complete; when io.Copy fails the file created by
os.Create stays behind half written; when http.Get fails, the status is
not 200, or os.Create fails, the filesystem is untouched.  The Bool is
whether an error was returned. -/
def downloadFile (fs : FS) (fpath : String) (r : FetchResult) : FS × Bool :=
  match r with
  | .ok => (fsSet fs fpath .complete, false)
  | .copyErr => (fsSet fs fpath .halfWritten, true)
  | .netErr => (fs, true)
  | .badStatus => (fs, true)
  | .createErr => (fs, true)

/-- Event on the player channels: creation of a channel for a routing key,
delivery of a sound on a channel, or a close of a channel. -/
inductive Ev where
  | create (c : Nat) (key : String)
  | send (c : Nat) (s : sound)
  | close (c : Nat)
deriving DecidableEq

/-- Which playersRouter implementation is behind the interface value. -/
inductive RouterKind where
  | single
  | multi
deriving DecidableEq

/-- State of a playersRouter together with the log of channel events.
For the single router the only channel is singleChan; for the multi router
routes is the key to channel map (insertion ordered) and nextChan feeds
fresh channel identities. -/
structure routerState where
  kind : RouterKind
  singleChan : Nat
  routes : List (String × Nat)
  nextChan : Nat
  events : List Ev
deriving DecidableEq

/-- Lookup in the key to channel map of the multi router. -/
def lookupKey (routes : List (String × Nat)) (q : String) : Option Nat :=
  match routes with
  | [] => none
  | p :: rest => if p.1 = q then some p.2 else lookupKey rest q

/-- Go source, newSinglePlayersRouter: one buffered channel made up front. -/
def newSinglePlayersRouter : routerState :=
  { kind := .single, singleChan := 0, routes := [], nextChan := 1,
    events := [Ev.create 0 ""] }

/-- Go source, newMultiPlayersRouter: an empty routes map. -/
def newMultiPlayersRouter : routerState :=
  { kind := .multi, singleChan := 0, routes := [], nextChan := 0,
    events := [] }

/-- Go source, method route of both routers.  The single router ignores the
query and returns its one channel unchanged.  The multi router, under its
mutex, returns the mapped channel or creates a fresh one on first
reference. -/
def routerState.route (r : routerState) (query : String) : Nat × routerState :=
  match r.kind with
  | .single => (r.singleChan, r)
  | .multi =>
    match lookupKey r.routes query with
    | some c => (c, r)
    | none =>
      let c := r.nextChan
      (c, { r with routes := r.routes ++ [(query, c)], nextChan := c + 1,
                   events := r.events ++ [Ev.create c query] })

/-- Delivery of a sound on a channel, the channel send in the downloader. -/
def routerState.send (r : routerState) (c : Nat) (s : sound) : routerState :=
  { r with events := r.events ++ [Ev.send c s] }

/-- Go source, method close of both routers: the single router closes its
one channel; the multi router, under its mutex, closes every channel in
its map. -/
def routerState.close (r : routerState) : routerState :=
  match r.kind with
  | .single => { r with events := r.events ++ [Ev.close r.singleChan] }
  | .multi => { r with events := r.events ++ (r.routes.map (fun p => Ev.close p.2)) }

/-- A sequence of route calls (an arbitrary serialization of concurrent
callers, since route holds the mutex). -/
def runRoutes (ks : List String) (r : routerState) : routerState :=
  ks.foldl (fun r q => (r.route q).2) r

/-- Sounds delivered on the channels, in delivery order. -/
def sendsOf (evs : List Ev) : List sound :=
  evs.filterMap fun e =>
    match e with
    | .send _ s => some s
    | _ => none

/-- Channels created so far, in creation order. -/
def createdChans (evs : List Ev) : List Nat :=
  evs.filterMap fun e =>
    match e with
    | .create c _ => some c
    | _ => none

/-- How many times channel c has been closed. -/
def closedCount (evs : List Ev) (c : Nat) : Nat :=
  evs.count (Ev.close c)

/-- Fate of one item taken from the shared intake by the downloader:
resolved from cache, resolved by a fetch, dropped on a stat error, or
dropped on a failed fetch. -/
inductive ItemResult where
  | cached
  | fetched
  | droppedStat
  | droppedFetch
deriving DecidableEq

/-- Resolved items are the cached and the fetched ones. -/
def isRouted : ItemResult → Bool
  | .cached => true
  | .fetched => true
  | .droppedStat => false
  | .droppedFetch => false

/-- State threaded through the downloader loop: the filesystem, the router
and the per item results so far. -/
structure dlState where
  fs : FS
  router : routerState
  results : List ItemResult
deriving DecidableEq

/-- The decision the downloader body reaches for one item, as a pure
function of the filesystem and the oracle: stat error drops the item
without a fetch; a present file is a cache hit; otherwise the fetch is
attempted and its error decides. -/
def stepRes (sdir : String) (fs : FS) (inp : sound × Oracle) : ItemResult :=
  let sp := soundPath sdir inp.1.fname
  let ex := fileExists fs inp.2.statErr sp
  if ex.2 then .droppedStat
  else if ex.1 then .cached
  else if (downloadFile fs sp inp.2.fetch).2 then .droppedFetch else .fetched

/-- Go source, body of the range loop in downloader: check the cache,
fetch on a miss when the check did not error, then route the item when no
error happened and drop it otherwise.  The routed sound is passed on
exactly as received. -/
def downloadStep (sdir : String) (st : dlState) (inp : sound × Oracle) : dlState :=
  let s := inp.1
  let o := inp.2
  let sp := soundPath sdir s.fname
  let ex := fileExists st.fs o.statErr sp
  if ex.2 then
    { st with results := st.results ++ [ItemResult.droppedStat] }
  else if ex.1 then
    let rc := st.router.route s.query
    { st with router := rc.2.send rc.1 s,
              results := st.results ++ [ItemResult.cached] }
  else
    let dl := downloadFile st.fs sp o.fetch
    if dl.2 then
      { st with fs := dl.1, results := st.results ++ [ItemResult.droppedFetch] }
    else
      let rc := st.router.route s.query
      { st with fs := dl.1, router := rc.2.send rc.1 s,
                results := st.results ++ [ItemResult.fetched] }

/-- Go source, function downloader: drain the intake, processing each item
in order, and close the router once the intake is exhausted (the deferred
router.close runs after the range loop ends, that is after end of input
from every producer has been observed). -/
def downloader (sdir : String) (inputs : List (sound × Oracle)) (st0 : dlState) : dlState :=
  let st := inputs.foldl (downloadStep sdir) st0
  { st with router := st.router.close }

/-- Go source, function queryDatabase: each row scanned from the statement
becomes a sound whose query and fpath fields are set before it is sent.
The rows list is what the catalog store returns for the query (already
capped by the LIMIT). -/
def queryDatabase (sdir : String) (query : String) (rows : List row) : List sound :=
  rows.map fun r =>
    { descr := r.description, fname := r.location,
      fpath := soundPath sdir r.location, query := query, secs := r.secs }

/-- Go source, the printing goroutine of the query-only branch of main:
a present file prints description and path, an absent one prints
description and the asset url. -/
def previewLine (present : String → Bool) (s : sound) : String :=
  if present s.fpath then s.descr ++ " " ++ s.fpath
  else s.descr ++ " " ++ assetUrl s.fname

/-- The query-only branch of main: every query is run and every item of
its result is printed, in order, before the branch ends. -/
def runPreview (sdir : String) (queries : List String)
    (rowsFor : String → List row) (present : String → Bool) : List String :=
  queries.flatMap fun q => (queryDatabase sdir q (rowsFor q)).map (previewLine present)

/-- Configuration distilled from the flags that the pipeline reads. -/
structure config where
  soundsDir : String
  onlyQuery : Bool
  mix : Bool
  queries : List String
deriving DecidableEq

/-- Observable outcome of a run of main: printed preview lines, the exit
code, whether the downloader stage was launched, how many player channels
were created, and the final pipeline state when the pipeline ran. -/
structure outcome where
  output : List String
  exitCode : Nat
  retrievalStarted : Bool
  streamsCreated : Nat
  finalState : Option dlState

/-- Go source, function main after flag parsing: the query-only branch
prints and exits 0 without building the router, the download channel or
the downloader; otherwise the router is chosen by the mix flag and the
pipeline runs.  The intake list is the order in which items of the
concurrent producers reach the shared channel. -/
def mainModel (cfg : config) (rowsFor : String → List row)
    (present : String → Bool) (intake : List (sound × Oracle)) (fs0 : FS) : outcome :=
  if cfg.onlyQuery then
    { output := runPreview cfg.soundsDir cfg.queries rowsFor present,
      exitCode := 0, retrievalStarted := false, streamsCreated := 0,
      finalState := none }
  else
    let router0 := if cfg.mix then newMultiPlayersRouter else newSinglePlayersRouter
    let fin := downloader cfg.soundsDir intake
      { fs := fs0, router := router0, results := [] }
    { output := [], exitCode := 0, retrievalStarted := true,
      streamsCreated := (createdChans fin.router.events).length,
      finalState := some fin }

/-! Helper lemmas about the embedding. -/

theorem foldl_inv {α σ : Type _} (f : σ → α → σ) (P : σ → Prop)
    (h : ∀ s a, P s → P (f s a)) :
    ∀ (l : List α) (s : σ), P s → P (l.foldl f s) := by
  intro l
  induction l with
  | nil => intro s hs; exact hs
  | cons a l ih => intro s hs; exact ih (f s a) (h s a hs)

theorem lookupKey_none_iff (l : List (String × Nat)) (q : String) :
    lookupKey l q = none ↔ ∀ p ∈ l, p.1 ≠ q := by
  induction l with
  | nil => simp [lookupKey]
  | cons p rest ih =>
    by_cases h : p.1 = q <;> simp [lookupKey, h, ih]

theorem lookupKey_append_some {l : List (String × Nat)} {q : String} {c : Nat}
    (h : lookupKey l q = some c) (l2 : List (String × Nat)) :
    lookupKey (l ++ l2) q = some c := by
  induction l with
  | nil => simp [lookupKey] at h
  | cons p rest ih =>
    by_cases hp : p.1 = q
    · simp [lookupKey, hp] at h ⊢; exact h
    · simp [lookupKey, hp] at h ⊢; exact ih h

theorem lookupKey_append_new {l : List (String × Nat)} {q : String}
    (h : lookupKey l q = none) (c : Nat) :
    lookupKey (l ++ [(q, c)]) q = some c := by
  induction l with
  | nil => simp [lookupKey]
  | cons p rest ih =>
    by_cases hp : p.1 = q
    · simp [lookupKey, hp] at h
    · simp [lookupKey, hp] at h ⊢; exact ih h

theorem mem_of_lookupKey {l : List (String × Nat)} {q : String} {c : Nat}
    (h : lookupKey l q = some c) : (q, c) ∈ l := by
  induction l with
  | nil => simp [lookupKey] at h
  | cons p rest ih =>
    obtain ⟨a, b⟩ := p
    by_cases hp : a = q
    · simp [lookupKey, hp] at h
      simp [hp, h]
    · simp [lookupKey, hp] at h
      exact List.mem_cons_of_mem _ (ih h)

theorem snd_nodup_inj {l : List (String × Nat)} (hch : (l.map Prod.snd).Nodup)
    {q1 q2 : String} {c : Nat} (h1 : (q1, c) ∈ l) (h2 : (q2, c) ∈ l) : q1 = q2 := by
  induction l with
  | nil => simp at h1
  | cons p rest ih =>
    simp only [List.map_cons, List.nodup_cons] at hch
    rcases List.mem_cons.1 h1 with e1 | m1 <;> rcases List.mem_cons.1 h2 with e2 | m2
    · exact congrArg Prod.fst (e1.trans e2.symm)
    · rw [← e1] at hch
      exact absurd (List.mem_map_of_mem Prod.snd m2) hch.1
    · rw [← e2] at hch
      exact absurd (List.mem_map_of_mem Prod.snd m1) hch.1
    · exact ih hch.2 m1 m2

theorem lookupKey_inj {l : List (String × Nat)} (hch : (l.map Prod.snd).Nodup)
    {q1 q2 : String} {c : Nat}
    (h1 : lookupKey l q1 = some c) (h2 : lookupKey l q2 = some c) : q1 = q2 :=
  snd_nodup_inj hch (mem_of_lookupKey h1) (mem_of_lookupKey h2)

theorem itemResult_partition (rs : List ItemResult) :
    rs.count .cached + rs.count .fetched + rs.count .droppedStat
      + rs.count .droppedFetch = rs.length := by
  induction rs with
  | nil => rfl
  | cons r rest ih =>
    cases r <;> simp [List.count_cons, ih] <;> omega

theorem sendsOf_append (a b : List Ev) : sendsOf (a ++ b) = sendsOf a ++ sendsOf b :=
  List.filterMap_append a b _

theorem createdChans_append (a b : List Ev) :
    createdChans (a ++ b) = createdChans a ++ createdChans b :=
  List.filterMap_append a b _

theorem route_single (r : routerState) (q : String) (h : r.kind = .single) :
    r.route q = (r.singleChan, r) := by
  simp [routerState.route, h]

theorem route_multi_some (r : routerState) (q : String) (c : Nat)
    (h : r.kind = .multi) (hl : lookupKey r.routes q = some c) :
    r.route q = (c, r) := by
  simp [routerState.route, h, hl]

theorem route_multi_new (r : routerState) (q : String)
    (h : r.kind = .multi) (hl : lookupKey r.routes q = none) :
    r.route q = (r.nextChan,
      { r with routes := r.routes ++ [(q, r.nextChan)], nextChan := r.nextChan + 1,
               events := r.events ++ [Ev.create r.nextChan q] }) := by
  simp [routerState.route, h, hl]

theorem route_kind (r : routerState) (q : String) :
    ((r.route q).2).kind = r.kind := by
  cases h : r.kind
  · rw [route_single r q h]
    exact h
  · cases hl : lookupKey r.routes q
    · rw [route_multi_new r q h hl]
      exact h
    · rw [route_multi_some r q _ h hl]
      exact h

theorem sendsOf_send_singleton (c : Nat) (s : sound) : sendsOf [Ev.send c s] = [s] := rfl

theorem sendsOf_create_singleton (c : Nat) (k : String) : sendsOf [Ev.create c k] = [] := rfl

theorem sendsOf_close_singleton (c : Nat) : sendsOf [Ev.close c] = [] := rfl

theorem route_sendsOf (r : routerState) (q : String) :
    sendsOf ((r.route q).2).events = sendsOf r.events := by
  cases h : r.kind
  · rw [route_single r q h]
  · cases hl : lookupKey r.routes q
    · rw [route_multi_new r q h hl]
      show sendsOf (r.events ++ [Ev.create r.nextChan q]) = sendsOf r.events
      rw [sendsOf_append, sendsOf_create_singleton, List.append_nil]
    · rw [route_multi_some r q _ h hl]

theorem downloadStep_results (sdir : String) (st : dlState) (inp : sound × Oracle) :
    (downloadStep sdir st inp).results = st.results ++ [stepRes sdir st.fs inp] := by
  obtain ⟨s, o⟩ := inp
  simp only [downloadStep, stepRes]
  split_ifs <;> rfl

theorem downloadStep_sends (sdir : String) (st : dlState) (inp : sound × Oracle) :
    sendsOf (downloadStep sdir st inp).router.events
      = sendsOf st.router.events
        ++ (if isRouted (stepRes sdir st.fs inp) then [inp.1] else []) := by
  obtain ⟨s, o⟩ := inp
  simp only [downloadStep, stepRes]
  split_ifs <;>
    simp_all [isRouted, routerState.send, sendsOf_append, route_sendsOf,
      sendsOf_send_singleton]

theorem downloadStep_kind (sdir : String) (st : dlState) (inp : sound × Oracle) :
    (downloadStep sdir st inp).router.kind = st.router.kind := by
  obtain ⟨s, o⟩ := inp
  simp only [downloadStep]
  split_ifs <;> simp [routerState.send, route_kind]

/-- Initial pipeline state of a run of main: the router is chosen by the
mix flag, the results are empty and the filesystem is the ambient one. -/
def pipelineInit (mixMode : Bool) (fs0 : FS) : dlState :=
  { fs := fs0,
    router := if mixMode then newMultiPlayersRouter else newSinglePlayersRouter,
    results := [] }

/-- One whole run of the retrieval stage over a drained intake. -/
def pipelineRun (sdir : String) (mixMode : Bool)
    (inputs : List (sound × Oracle)) (fs0 : FS) : dlState :=
  downloader sdir inputs (pipelineInit mixMode fs0)

/-- Invariant of every reachable multi router state before close: distinct
keys, channel identities below nextChan and pairwise distinct, the created
channels are exactly the mapped ones, nothing closed yet, and every
delivered sound went to the channel mapped to its own originating query. -/
structure MultiInv (r : routerState) : Prop where
  kind : r.kind = .multi
  keysNodup : (r.routes.map Prod.fst).Nodup
  chanBound : ∀ p ∈ r.routes, p.2 < r.nextChan
  chansNodup : (r.routes.map Prod.snd).Nodup
  created : createdChans r.events = r.routes.map Prod.snd
  noClose : ∀ c, Ev.close c ∉ r.events
  sendTag : ∀ c s, Ev.send c s ∈ r.events → lookupKey r.routes s.query = some c

theorem multiInv_new : MultiInv newMultiPlayersRouter := by
  constructor <;> simp [newMultiPlayersRouter, createdChans]

theorem multiInv_route {r : routerState} (h : MultiInv r) (q : String) :
    MultiInv (r.route q).2 ∧ lookupKey ((r.route q).2).routes q = some (r.route q).1 := by
  cases hl : lookupKey r.routes q with
  | some c =>
    rw [route_multi_some r q c h.kind hl]
    exact ⟨h, hl⟩
  | none =>
    rw [route_multi_new r q h.kind hl]
    have hq : q ∉ r.routes.map Prod.fst := by
      intro hmem
      obtain ⟨p, hp, he⟩ := List.mem_map.1 hmem
      exact ((lookupKey_none_iff r.routes q).1 hl p hp) he
    have hnc : r.nextChan ∉ r.routes.map Prod.snd := by
      intro hmem
      obtain ⟨p, hp, he⟩ := List.mem_map.1 hmem
      exact absurd he (Nat.ne_of_lt (h.chanBound p hp))
    refine ⟨⟨h.kind, ?_, ?_, ?_, ?_, ?_, ?_⟩, lookupKey_append_new hl r.nextChan⟩
    · rw [List.map_append]
      exact h.keysNodup.append (by simp) (by simp [List.disjoint_singleton, hq])
    · intro p hp
      rcases List.mem_append.1 hp with hp1 | hp2
      · exact Nat.lt_trans (h.chanBound p hp1) (Nat.lt_succ_self _)
      · simp at hp2
        simp [hp2]
    · rw [List.map_append]
      exact h.chansNodup.append (by simp) (by simp [List.disjoint_singleton, hnc])
    · rw [createdChans_append, h.created, List.map_append]
      rfl
    · intro c hc
      rcases List.mem_append.1 hc with hc1 | hc2
      · exact h.noClose c hc1
      · simp at hc2
    · intro c s hs
      rcases List.mem_append.1 hs with hs1 | hs2
      · exact lookupKey_append_some (h.sendTag c s hs1) _
      · simp at hs2

theorem multiInv_send {r : routerState} (h : MultiInv r) {c : Nat} {s : sound}
    (hc : lookupKey r.routes s.query = some c) : MultiInv (r.send c s) := by
  refine ⟨h.kind, h.keysNodup, h.chanBound, h.chansNodup, ?_, ?_, ?_⟩
  · show createdChans (r.events ++ [Ev.send c s]) = r.routes.map Prod.snd
    rw [createdChans_append, h.created]
    simp [createdChans]
  · intro c2 hc2
    rcases List.mem_append.1 hc2 with hx | hx
    · exact h.noClose c2 hx
    · simp at hx
  · intro c2 s2 hs2
    rcases List.mem_append.1 hs2 with hx | hx
    · exact h.sendTag c2 s2 hx
    · simp at hx
      rw [hx.2, hx.1]
      exact hc

theorem multiInv_downloadStep (sdir : String) (st : dlState) (inp : sound × Oracle)
    (h : MultiInv st.router) : MultiInv (downloadStep sdir st inp).router := by
  obtain ⟨s, o⟩ := inp
  simp only [downloadStep]
  split_ifs
  · exact h
  · exact multiInv_send (multiInv_route h s.query).1 (multiInv_route h s.query).2
  · exact h
  · exact multiInv_send (multiInv_route h s.query).1 (multiInv_route h s.query).2

/-- Invariant of every reachable single router state before close: the one
channel is channel 0, created at construction, and the only later events
are deliveries. -/
structure SingleInv (r : routerState) : Prop where
  kind : r.kind = .single
  chanZero : r.singleChan = 0
  evShape : ∃ tail, r.events = Ev.create 0 "" :: tail ∧ ∀ e ∈ tail, ∃ c s, e = Ev.send c s

theorem singleInv_new : SingleInv newSinglePlayersRouter :=
  ⟨rfl, rfl, [], rfl, by simp⟩

theorem singleInv_downloadStep (sdir : String) (st : dlState) (inp : sound × Oracle)
    (h : SingleInv st.router) : SingleInv (downloadStep sdir st inp).router := by
  obtain ⟨s, o⟩ := inp
  obtain ⟨tail, het, hts⟩ := h.evShape
  have hr : st.router.route s.query = (st.router.singleChan, st.router) :=
    route_single _ _ h.kind
  simp only [downloadStep]
  split_ifs
  · exact h
  · rw [hr]
    refine ⟨h.kind, h.chanZero, tail ++ [Ev.send st.router.singleChan s], ?_, ?_⟩
    · show st.router.events ++ [Ev.send st.router.singleChan s] = _
      rw [het]
      rfl
    · intro e he
      rcases List.mem_append.1 he with hx | hx
      · exact hts e hx
      · simp at hx
        exact ⟨_, _, hx⟩
  · exact h
  · rw [hr]
    refine ⟨h.kind, h.chanZero, tail ++ [Ev.send st.router.singleChan s], ?_, ?_⟩
    · show st.router.events ++ [Ev.send st.router.singleChan s] = _
      rw [het]
      rfl
    · intro e he
      rcases List.mem_append.1 he with hx | hx
      · exact hts e hx
      · simp at hx
        exact ⟨_, _, hx⟩

theorem multiInv_fold (sdir : String) (inputs : List (sound × Oracle)) (st0 : dlState)
    (h : MultiInv st0.router) : MultiInv ((inputs.foldl (downloadStep sdir) st0).router) :=
  foldl_inv (downloadStep sdir) (fun st => MultiInv st.router)
    (fun st inp hst => multiInv_downloadStep sdir st inp hst) inputs st0 h

theorem singleInv_fold (sdir : String) (inputs : List (sound × Oracle)) (st0 : dlState)
    (h : SingleInv st0.router) : SingleInv ((inputs.foldl (downloadStep sdir) st0).router) :=
  foldl_inv (downloadStep sdir) (fun st => SingleInv st.router)
    (fun st inp hst => singleInv_downloadStep sdir st inp hst) inputs st0 h

theorem close_multi (r : routerState) (h : r.kind = .multi) :
    r.close = { r with events := r.events ++ r.routes.map (fun p => Ev.close p.2) } := by
  simp [routerState.close, h]

theorem close_single (r : routerState) (h : r.kind = .single) :
    r.close = { r with events := r.events ++ [Ev.close r.singleChan] } := by
  simp [routerState.close, h]

theorem close_kind (r : routerState) : r.close.kind = r.kind := by
  cases h : r.kind
  · rw [close_single r h]
    exact h
  · rw [close_multi r h]
    exact h

theorem downloader_results (sdir : String) (inputs : List (sound × Oracle)) (st0 : dlState) :
    (downloader sdir inputs st0).results = (inputs.foldl (downloadStep sdir) st0).results :=
  rfl

theorem downloader_fs (sdir : String) (inputs : List (sound × Oracle)) (st0 : dlState) :
    (downloader sdir inputs st0).fs = (inputs.foldl (downloadStep sdir) st0).fs :=
  rfl

theorem downloader_router (sdir : String) (inputs : List (sound × Oracle)) (st0 : dlState) :
    (downloader sdir inputs st0).router = (inputs.foldl (downloadStep sdir) st0).router.close :=
  rfl

theorem ev_close_injective : Function.Injective Ev.close := by
  intro a b h
  cases h
  rfl

theorem createdChans_closeList (l : List Nat) : createdChans (l.map Ev.close) = [] := by
  induction l with
  | nil => rfl
  | cons c rest ih => simpa [createdChans] using ih

theorem sendsOf_closeList (l : List Nat) : sendsOf (l.map Ev.close) = [] := by
  induction l with
  | nil => rfl
  | cons c rest ih => simpa [sendsOf] using ih

theorem createdChans_of_sends {l : List Ev}
    (h : ∀ e ∈ l, ∃ c s, e = Ev.send c s) : createdChans l = [] := by
  induction l with
  | nil => rfl
  | cons e rest ih =>
    obtain ⟨c, s, he⟩ := h e (List.mem_cons_self e rest)
    subst he
    simpa [createdChans] using ih (fun e2 he2 => h e2 (List.mem_cons_of_mem _ he2))

theorem close_not_mem_of_sends {l : List Ev}
    (h : ∀ e ∈ l, ∃ c s, e = Ev.send c s) (c : Nat) : Ev.close c ∉ l := by
  intro hm
  obtain ⟨c2, s2, he⟩ := h _ hm
  simp at he

theorem send_not_mem_closeList (l : List Nat) (c : Nat) (s : sound) :
    Ev.send c s ∉ l.map Ev.close := by
  intro hm
  obtain ⟨x, hx, he⟩ := List.mem_map.1 hm
  simp at he

theorem count_close_closeList (l : List Nat) (c : Nat) :
    (l.map Ev.close).count (Ev.close c) = l.count c :=
  List.count_map_of_injective l Ev.close ev_close_injective c

theorem close_after_send {L1 L2 : List Ev}
    (h1 : ∀ c, Ev.close c ∉ L1) (h2 : ∀ c s, Ev.send c s ∉ L2) :
    ∀ (i j c c2 : Nat) (s : sound), (L1 ++ L2)[i]? = some (Ev.close c) →
      (L1 ++ L2)[j]? = some (Ev.send c2 s) → j < i := by
  intro i j c c2 s hi hj
  have hiL : ¬ i < L1.length := by
    intro hlt
    rw [List.getElem?_append_left hlt] at hi
    exact h1 c (List.getElem?_mem hi)
  have hjL : j < L1.length := by
    by_contra hge
    push_neg at hge
    rw [List.getElem?_append_right hge] at hj
    exact h2 c2 s (List.getElem?_mem hj)
  omega

theorem close_once_generic (evs : List Ev) (chans : List Nat)
    (hnoclose : ∀ c, Ev.close c ∉ evs)
    (hnodup : chans.Nodup)
    (hcreated : createdChans evs = chans) :
    (∀ c, c ∈ createdChans (evs ++ chans.map Ev.close) →
        closedCount (evs ++ chans.map Ev.close) c = 1) ∧
    (∀ c, c ∉ createdChans (evs ++ chans.map Ev.close) →
        closedCount (evs ++ chans.map Ev.close) c = 0) ∧
    (∀ (i j c c2 : Nat) (s : sound), (evs ++ chans.map Ev.close)[i]? = some (Ev.close c) →
        (evs ++ chans.map Ev.close)[j]? = some (Ev.send c2 s) → j < i) := by
  have hcr : createdChans (evs ++ chans.map Ev.close) = chans := by
    rw [createdChans_append, createdChans_closeList, hcreated, List.append_nil]
  have hcount : ∀ c, closedCount (evs ++ chans.map Ev.close) c = chans.count c := by
    intro c
    show (evs ++ chans.map Ev.close).count (Ev.close c) = chans.count c
    rw [List.count_append, count_close_closeList,
      List.count_eq_zero.2 (hnoclose c), Nat.zero_add]
  refine ⟨?_, ?_, ?_⟩
  · intro c hc
    rw [hcr] at hc
    rw [hcount]
    exact List.count_eq_one_of_mem hnodup hc
  · intro c hc
    rw [hcr] at hc
    rw [hcount]
    exact List.count_eq_zero.2 hc
  · exact close_after_send hnoclose (send_not_mem_closeList chans)

theorem runRoutes_multiInv {r : routerState} (h : MultiInv r) (ks : List String) :
    MultiInv (runRoutes ks r) :=
  foldl_inv _ MultiInv (fun r q hq => (multiInv_route hq q).1) ks r h

theorem route_keys (r : routerState) (q : String) (h : r.kind = .multi) (k : String) :
    k ∈ ((r.route q).2).routes.map Prod.fst ↔ k ∈ r.routes.map Prod.fst ∨ k = q := by
  cases hl : lookupKey r.routes q
  · rw [route_multi_new r q h hl]
    show k ∈ (r.routes ++ [(q, r.nextChan)]).map Prod.fst ↔ _
    simp
  · rename_i c
    rw [route_multi_some r q c h hl]
    constructor
    · intro hk
      exact Or.inl hk
    · intro hk
      rcases hk with hk | hk
      · exact hk
      · rw [hk]
        exact List.mem_map_of_mem Prod.fst (mem_of_lookupKey hl)

theorem runRoutes_keys {r : routerState} (h : MultiInv r) (ks : List String) (k : String) :
    k ∈ (runRoutes ks r).routes.map Prod.fst ↔ k ∈ r.routes.map Prod.fst ∨ k ∈ ks := by
  induction ks generalizing r with
  | nil => simp [runRoutes]
  | cons q ks ih =>
    show k ∈ (runRoutes ks (r.route q).2).routes.map Prod.fst ↔ _
    rw [ih (multiInv_route h q).1, route_keys r q h.kind k]
    simp
    tauto

theorem runRoutes_single (ks : List String) (r : routerState) (h : r.kind = .single) :
    runRoutes ks r = r := by
  induction ks generalizing r with
  | nil => rfl
  | cons q ks ih =>
    show runRoutes ks (r.route q).2 = r
    rw [route_single r q h]
    exact ih r h

/-- Dropped results of the retrieval stage. -/
def countDropped (rs : List ItemResult) : Nat :=
  rs.count .droppedStat + rs.count .droppedFetch

theorem fold_results_len (sdir : String) (inputs : List (sound × Oracle)) (st0 : dlState) :
    ((inputs.foldl (downloadStep sdir) st0).results).length
      = st0.results.length + inputs.length := by
  induction inputs generalizing st0 with
  | nil => simp
  | cons i rest ih =>
    show ((rest.foldl (downloadStep sdir) (downloadStep sdir st0 i)).results).length = _
    rw [ih, downloadStep_results]
    simp
    omega

theorem fold_sends_balance (sdir : String) (inputs : List (sound × Oracle)) (st0 : dlState) :
    (sendsOf (inputs.foldl (downloadStep sdir) st0).router.events).length
        + countDropped (inputs.foldl (downloadStep sdir) st0).results
      = (sendsOf st0.router.events).length + countDropped st0.results + inputs.length := by
  induction inputs generalizing st0 with
  | nil => simp
  | cons i rest ih =>
    show (sendsOf (rest.foldl (downloadStep sdir) (downloadStep sdir st0 i)).router.events).length
        + countDropped (rest.foldl (downloadStep sdir) (downloadStep sdir st0 i)).results = _
    rw [ih, downloadStep_results, downloadStep_sends]
    cases hres : stepRes sdir st0.fs i <;>
      simp [countDropped, isRouted, List.count_append, List.count_cons] <;> omega

theorem closeList_eq (l : List (String × Nat)) :
    l.map (fun p => Ev.close p.2) = (l.map Prod.snd).map Ev.close := by
  rw [List.map_map]
  rfl

theorem close_routes (r : routerState) : r.close.routes = r.routes := by
  cases h : r.kind
  · rw [close_single r h]
  · rw [close_multi r h]

theorem close_nextChan (r : routerState) : r.close.nextChan = r.nextChan := by
  cases h : r.kind
  · rw [close_single r h]
  · rw [close_multi r h]

theorem close_events_multi (r : routerState) (h : r.kind = .multi) :
    r.close.events = r.events ++ (r.routes.map Prod.snd).map Ev.close := by
  rw [close_multi r h]
  show r.events ++ r.routes.map (fun p => Ev.close p.2) = _
  rw [closeList_eq]

theorem createdChans_cons_create (c : Nat) (k : String) (l : List Ev) :
    createdChans (Ev.create c k :: l) = c :: createdChans l :=
  rfl

theorem sendsOf_close (r : routerState) : sendsOf r.close.events = sendsOf r.events := by
  cases h : r.kind
  · rw [close_single r h]
    show sendsOf (r.events ++ [Ev.close r.singleChan]) = _
    rw [sendsOf_append, sendsOf_close_singleton, List.append_nil]
  · rw [close_multi r h]
    show sendsOf (r.events ++ r.routes.map (fun p => Ev.close p.2)) = _
    rw [sendsOf_append, show r.routes.map (fun p => Ev.close p.2)
        = (r.routes.map Prod.snd).map Ev.close by rw [List.map_map]; rfl,
      sendsOf_closeList, List.append_nil]

theorem pipelineRun_router (sdir : String) (mixMode : Bool)
    (inputs : List (sound × Oracle)) (fs0 : FS) :
    (pipelineRun sdir mixMode inputs fs0).router
      = (inputs.foldl (downloadStep sdir) (pipelineInit mixMode fs0)).router.close :=
  rfl

theorem pipelineInit_multiInv (fs0 : FS) : MultiInv (pipelineInit true fs0).router :=
  multiInv_new

theorem pipelineInit_singleInv (fs0 : FS) : SingleInv (pipelineInit false fs0).router :=
  singleInv_new

/-- Counterexample to claim C2 as stated: it is not true of every pipeline
run that every Stream the Router has created is closed exactly once with
none left unclosed at shutdown.  In mix mode the player goroutines call
route with their term without any synchronization against the deferred
router close of the downloader, so a schedule in which the downloader
drains the intake and closes first, and a player routes its key
afterwards, is reachable.  Concretely: mix mode, one term q whose query
contributes no resolved item (empty intake); the downloader closes the
empty map, then the player route for q runs.  In the final router state
exactly one stream was created by the Router and its close count is zero:
a Stream created by the Router is left unclosed (and that player blocks
forever on it). -/
theorem stream_left_unclosed_counterexample :
    createdChans (((pipelineRun "d" true [] []).router.route "q").2).events = [0] ∧
    Ev.create 0 "q" ∈ (((pipelineRun "d" true [] []).router.route "q").2).events ∧
    closedCount (((pipelineRun "d" true [] []).router.route "q").2).events 0 = 0 :=
  ⟨by decide, by decide, by decide⟩

/-- Claim C2 amended: over one pipeline run, every player channel created
by a route call that precedes the close of the router (in particular every
channel the downloader itself routed to) is closed exactly once, a channel
that was never created is never closed, and every close happens only after
every delivery: the downloader closes the router only once the intake has
yielded end of input from every producer.  However, a route call that
lands after the close (a first reference to a key by a player goroutine
racing the deferred close in mix mode) creates a fresh channel that the
close never closed: that stream is recorded as created and has close count
zero, so it is left unclosed. -/
theorem streams_closed_once_after_drain (sdir : String) (mixMode : Bool)
    (inputs : List (sound × Oracle)) (fs0 : FS) :
    (∀ c, c ∈ createdChans (pipelineRun sdir mixMode inputs fs0).router.events →
        closedCount (pipelineRun sdir mixMode inputs fs0).router.events c = 1) ∧
    (∀ c, c ∉ createdChans (pipelineRun sdir mixMode inputs fs0).router.events →
        closedCount (pipelineRun sdir mixMode inputs fs0).router.events c = 0) ∧
    (∀ (i j c c2 : Nat) (s : sound),
        (pipelineRun sdir mixMode inputs fs0).router.events[i]? = some (Ev.close c) →
        (pipelineRun sdir mixMode inputs fs0).router.events[j]? = some (Ev.send c2 s) →
        j < i) ∧
    (mixMode = true → ∀ k,
        lookupKey (pipelineRun sdir mixMode inputs fs0).router.routes k = none →
        Ev.create ((pipelineRun sdir mixMode inputs fs0).router.route k).1 k
            ∈ (((pipelineRun sdir mixMode inputs fs0).router.route k).2).events ∧
        closedCount (((pipelineRun sdir mixMode inputs fs0).router.route k).2).events
            ((pipelineRun sdir mixMode inputs fs0).router.route k).1 = 0) := by
  cases mixMode with
  | true =>
    have hinv := multiInv_fold sdir inputs (pipelineInit true fs0) (pipelineInit_multiInv fs0)
    have hev : (pipelineRun sdir true inputs fs0).router.events
        = (inputs.foldl (downloadStep sdir) (pipelineInit true fs0)).router.events
          ++ ((inputs.foldl (downloadStep sdir) (pipelineInit true fs0)).router.routes.map
              Prod.snd).map Ev.close := by
      show (downloader sdir inputs (pipelineInit true fs0)).router.events = _
      rw [downloader_router, close_events_multi _ hinv.kind]
    have htriple := close_once_generic
        (inputs.foldl (downloadStep sdir) (pipelineInit true fs0)).router.events
        ((inputs.foldl (downloadStep sdir) (pipelineInit true fs0)).router.routes.map Prod.snd)
        hinv.noClose hinv.chansNodup hinv.created
    have hpost : ∀ k,
        lookupKey (pipelineRun sdir true inputs fs0).router.routes k = none →
        Ev.create ((pipelineRun sdir true inputs fs0).router.route k).1 k
            ∈ (((pipelineRun sdir true inputs fs0).router.route k).2).events ∧
        closedCount (((pipelineRun sdir true inputs fs0).router.route k).2).events
            ((pipelineRun sdir true inputs fs0).router.route k).1 = 0 := by
      intro k hk
      have hkind : (pipelineRun sdir true inputs fs0).router.kind = .multi := by
        rw [pipelineRun_router, close_kind]
        exact hinv.kind
      have hroute := route_multi_new _ k hkind hk
      have hcc : closedCount (pipelineRun sdir true inputs fs0).router.events
          (pipelineRun sdir true inputs fs0).router.nextChan = 0 := by
        rw [pipelineRun_router, close_nextChan, close_events_multi _ hinv.kind]
        simp only [closedCount]
        rw [List.count_append, List.count_eq_zero.2 (hinv.noClose _), count_close_closeList,
          List.count_eq_zero.2 ?notmem2, Nat.add_zero]
        case notmem2 =>
          intro hm
          obtain ⟨p, hp, he⟩ := List.mem_map.1 hm
          exact absurd he (Nat.ne_of_lt (hinv.chanBound p hp))
      constructor
      · rw [hroute]
        exact List.mem_append.2 (Or.inr (by simp))
      · rw [hroute]
        show ((pipelineRun sdir true inputs fs0).router.events
            ++ [Ev.create (pipelineRun sdir true inputs fs0).router.nextChan k]).count _ = 0
        rw [List.count_append]
        have h2 : ([Ev.create (pipelineRun sdir true inputs fs0).router.nextChan k]).count
            (Ev.close (pipelineRun sdir true inputs fs0).router.nextChan) = 0 := by
          simp
        rw [h2, Nat.add_zero]
        exact hcc
    rw [hev]
    exact ⟨htriple.1, htriple.2.1, htriple.2.2, fun _ => hpost⟩
  | false =>
    have hinv := singleInv_fold sdir inputs (pipelineInit false fs0) (pipelineInit_singleInv fs0)
    obtain ⟨tail, het, hts⟩ := hinv.evShape
    have hnoclose : ∀ c, Ev.close c
        ∉ (inputs.foldl (downloadStep sdir) (pipelineInit false fs0)).router.events := by
      intro c hm
      rw [het] at hm
      rcases List.mem_cons.1 hm with hx | hx
      · simp at hx
      · exact close_not_mem_of_sends hts c hx
    have hcreated : createdChans
        (inputs.foldl (downloadStep sdir) (pipelineInit false fs0)).router.events = [0] := by
      rw [het, createdChans_cons_create, createdChans_of_sends hts]
    have hev : (pipelineRun sdir false inputs fs0).router.events
        = (inputs.foldl (downloadStep sdir) (pipelineInit false fs0)).router.events
          ++ [0].map Ev.close := by
      show (downloader sdir inputs (pipelineInit false fs0)).router.events = _
      rw [downloader_router, close_single _ hinv.kind]
      show (inputs.foldl (downloadStep sdir) (pipelineInit false fs0)).router.events
          ++ [Ev.close (inputs.foldl (downloadStep sdir) (pipelineInit false fs0)).router.singleChan]
        = _
      rw [hinv.chanZero]
      rfl
    rw [hev]
    have htriple := close_once_generic
        (inputs.foldl (downloadStep sdir) (pipelineInit false fs0)).router.events
        [0] hnoclose (by simp) hcreated
    exact ⟨htriple.1, htriple.2.1, htriple.2.2, fun hmx => absurd hmx (by simp)⟩

/-- Witness for the amended C2 at concrete runs: one mix mode item,
cached, gives one created channel, closed exactly once; and on the empty
intake run a post-close route of the fresh key q yields a channel with
close count zero. -/
theorem streams_closed_once_after_drain_witness :
    (createdChans (pipelineRun "d" true
        [(⟨"x", "f", "d/f", "q", 1⟩, ⟨false, FetchResult.ok⟩)] []).router.events = [0] ∧
      closedCount (pipelineRun "d" true
        [(⟨"x", "f", "d/f", "q", 1⟩, ⟨false, FetchResult.ok⟩)] []).router.events 0 = 1) ∧
    (lookupKey (pipelineRun "d" true [] []).router.routes "q" = none ∧
      closedCount (((pipelineRun "d" true [] []).router.route "q").2).events
        ((pipelineRun "d" true [] []).router.route "q").1 = 0) :=
  ⟨⟨by decide,
    (streams_closed_once_after_drain "d" true
        [(⟨"x", "f", "d/f", "q", 1⟩, ⟨false, FetchResult.ok⟩)] []).1 0 (by decide)⟩,
   ⟨by decide,
    ((streams_closed_once_after_drain "d" true [] []).2.2.2 rfl "q" (by decide)).2⟩⟩

/-- Claim C3: every item taken from the intake produces exactly one result,
the resolved plus the dropped results account for every candidate item,
and the number of sounds delivered to the streams equals the number of
resolved items, so a failed item is never forwarded and no item is
processed twice. -/
theorem retrieval_success_failure_partition (sdir : String) (mixMode : Bool)
    (inputs : List (sound × Oracle)) (fs0 : FS) :
    (pipelineRun sdir mixMode inputs fs0).results.length = inputs.length ∧
    (pipelineRun sdir mixMode inputs fs0).results.count .cached
      + (pipelineRun sdir mixMode inputs fs0).results.count .fetched
      + (pipelineRun sdir mixMode inputs fs0).results.count .droppedStat
      + (pipelineRun sdir mixMode inputs fs0).results.count .droppedFetch
      = inputs.length ∧
    (sendsOf (pipelineRun sdir mixMode inputs fs0).router.events).length
      + countDropped (pipelineRun sdir mixMode inputs fs0).results = inputs.length := by
  have hlen : (pipelineRun sdir mixMode inputs fs0).results.length = inputs.length := by
    show ((inputs.foldl (downloadStep sdir) (pipelineInit mixMode fs0)).results).length = _
    rw [fold_results_len]
    cases mixMode <;> simp [pipelineInit]
  refine ⟨hlen, ?_, ?_⟩
  · rw [itemResult_partition]
    exact hlen
  · have hsends : sendsOf (pipelineRun sdir mixMode inputs fs0).router.events
        = sendsOf (inputs.foldl (downloadStep sdir) (pipelineInit mixMode fs0)).router.events := by
      show sendsOf (downloader sdir inputs (pipelineInit mixMode fs0)).router.events = _
      rw [downloader_router, sendsOf_close]
    have hres : (pipelineRun sdir mixMode inputs fs0).results
        = (inputs.foldl (downloadStep sdir) (pipelineInit mixMode fs0)).results := rfl
    rw [hsends, hres, fold_sends_balance]
    cases mixMode <;>
      simp [pipelineInit, newSinglePlayersRouter, newMultiPlayersRouter, sendsOf, countDropped]

/-- Claim C1: the mix mode router creates exactly one stream per distinct
routed key over an arbitrary serialization of concurrent route calls
(distinct keys map to distinct streams, a repeated reference returns the
same stream and creates nothing), and in a downloader run every sound
delivered to the stream mapped to key k carries originating query k. -/
theorem mix_router_one_stream_per_term
    (ks : List String) (sdir : String) (inputs : List (sound × Oracle)) (fs0 : FS) :
    ((runRoutes ks newMultiPlayersRouter).routes.map Prod.fst).Nodup ∧
    (∀ k, k ∈ (runRoutes ks newMultiPlayersRouter).routes.map Prod.fst ↔ k ∈ ks) ∧
    (∀ k, (((runRoutes ks newMultiPlayersRouter).route k).2.route k).1
        = ((runRoutes ks newMultiPlayersRouter).route k).1) ∧
    (∀ (k : String) (c : Nat) (s : sound),
      lookupKey (downloader sdir inputs
          { fs := fs0, router := runRoutes ks newMultiPlayersRouter,
            results := [] }).router.routes k = some c →
      Ev.send c s ∈ (downloader sdir inputs
          { fs := fs0, router := runRoutes ks newMultiPlayersRouter,
            results := [] }).router.events →
      s.query = k) := by
  have hK : MultiInv (runRoutes ks newMultiPlayersRouter) :=
    runRoutes_multiInv multiInv_new ks
  refine ⟨hK.keysNodup, ?_, ?_, ?_⟩
  · intro k
    rw [runRoutes_keys multiInv_new ks k]
    simp [newMultiPlayersRouter]
  · intro k
    obtain ⟨h1, h2⟩ := multiInv_route hK k
    rw [route_multi_some _ k _ h1.kind h2]
  · intro k c s hlk hsend
    have hF : MultiInv ((inputs.foldl (downloadStep sdir)
        { fs := fs0, router := runRoutes ks newMultiPlayersRouter,
          results := [] }).router) :=
      multiInv_fold sdir inputs _ hK
    rw [downloader_router, close_routes] at hlk
    rw [downloader_router, close_events_multi _ hF.kind] at hsend
    rcases List.mem_append.1 hsend with hx | hx
    · exact lookupKey_inj hF.chansNodup (hF.sendTag c s hx) hlk
    · exact absurd hx (send_not_mem_closeList _ c s)

/-- Witness for C1 at a concrete run: keys a and b are routed, the item
tagged a is found on the channel mapped to a, and its query is a. -/
theorem mix_router_one_stream_per_term_witness :
    (lookupKey (downloader "d" [(⟨"x", "f", "d/f", "a", 1⟩, ⟨false, FetchResult.ok⟩)]
        { fs := [("d/f", FileState.complete)],
          router := runRoutes ["a", "b"] newMultiPlayersRouter,
          results := [] }).router.routes "a" = some 0 ∧
      Ev.send 0 ⟨"x", "f", "d/f", "a", 1⟩ ∈ (downloader "d"
        [(⟨"x", "f", "d/f", "a", 1⟩, ⟨false, FetchResult.ok⟩)]
        { fs := [("d/f", FileState.complete)],
          router := runRoutes ["a", "b"] newMultiPlayersRouter,
          results := [] }).router.events) ∧
    (⟨"x", "f", "d/f", "a", 1⟩ : sound).query = "a" :=
  ⟨⟨by decide, by decide⟩,
    (mix_router_one_stream_per_term ["a", "b"] "d"
        [(⟨"x", "f", "d/f", "a", 1⟩, ⟨false, FetchResult.ok⟩)]
        [("d/f", FileState.complete)]).2.2.2 "a" 0 ⟨"x", "f", "d/f", "a", 1⟩
      (by decide) (by decide)⟩

/-- Claim C8: the single key router ignores its argument: route returns the
one channel made at construction and leaves the router untouched, any two
queries get the same channel, any sequence of route calls changes nothing,
and exactly one channel ever exists regardless of the number of terms. -/
theorem single_router_ignores_key (r : routerState) (q1 q2 : String) (ks : List String)
    (h : r.kind = RouterKind.single) :
    r.route q1 = (r.singleChan, r) ∧
    (r.route q1).1 = (r.route q2).1 ∧
    runRoutes ks r = r ∧
    createdChans (runRoutes ks newSinglePlayersRouter).events = [0] := by
  refine ⟨route_single r q1 h, ?_, runRoutes_single ks r h, ?_⟩
  · rw [route_single r q1 h, route_single r q2 h]
  · rw [runRoutes_single ks newSinglePlayersRouter rfl]
    rfl

/-- Witness for C8 at concrete queries: both queries get channel 0 of the
fresh single router. -/
theorem single_router_ignores_key_witness :
    newSinglePlayersRouter.kind = RouterKind.single ∧
    (newSinglePlayersRouter.route "cafe").1 = (newSinglePlayersRouter.route "typewriter").1 :=
  ⟨by decide,
    (single_router_ignores_key newSinglePlayersRouter "cafe" "typewriter"
      ["cafe", "typewriter"] (by decide)).2.1⟩

/-- Claim C10: after the downloader has closed the mix router, a route call
with a never routed key still creates and returns a fresh open channel:
the channel is new, it is recorded as created, the close that already ran
never closed it and the updated map now maps the key to it.  On the single
router a second close call closes channel 0 again: the close count goes
from one to two, so close is not idempotent and the second call closes an
already closed channel. -/
theorem route_after_close_new_stream (sdir : String) (inputs : List (sound × Oracle))
    (fs0 : FS) (k : String)
    (hk : lookupKey (pipelineRun sdir true inputs fs0).router.routes k = none) :
    (((pipelineRun sdir true inputs fs0).router.route k).1
        = (pipelineRun sdir true inputs fs0).router.nextChan ∧
      Ev.create (pipelineRun sdir true inputs fs0).router.nextChan k
        ∈ ((pipelineRun sdir true inputs fs0).router.route k).2.events ∧
      closedCount ((pipelineRun sdir true inputs fs0).router.route k).2.events
        (pipelineRun sdir true inputs fs0).router.nextChan = 0 ∧
      lookupKey ((pipelineRun sdir true inputs fs0).router.route k).2.routes k
        = some (pipelineRun sdir true inputs fs0).router.nextChan) ∧
    (closedCount newSinglePlayersRouter.close.events 0 = 1 ∧
      closedCount newSinglePlayersRouter.close.close.events 0 = 2) := by
  constructor
  · have hF : MultiInv ((inputs.foldl (downloadStep sdir)
        (pipelineInit true fs0)).router) :=
      multiInv_fold sdir inputs _ (pipelineInit_multiInv fs0)
    have hkind : (pipelineRun sdir true inputs fs0).router.kind = .multi := by
      rw [pipelineRun_router, close_kind]
      exact hF.kind
    have hroute := route_multi_new _ k hkind hk
    have hcc : closedCount (pipelineRun sdir true inputs fs0).router.events
        (pipelineRun sdir true inputs fs0).router.nextChan = 0 := by
      rw [pipelineRun_router, close_nextChan, close_events_multi _ hF.kind]
      simp only [closedCount]
      rw [List.count_append, List.count_eq_zero.2 (hF.noClose _), count_close_closeList,
        List.count_eq_zero.2 ?notmem, Nat.add_zero]
      case notmem =>
        intro hm
        obtain ⟨p, hp, he⟩ := List.mem_map.1 hm
        exact absurd he (Nat.ne_of_lt (hF.chanBound p hp))
    refine ⟨?_, ?_, ?_, ?_⟩
    · rw [hroute]
    · rw [hroute]
      exact List.mem_append.2 (Or.inr (by simp))
    · rw [hroute]
      show ((pipelineRun sdir true inputs fs0).router.events
          ++ [Ev.create (pipelineRun sdir true inputs fs0).router.nextChan k]).count _ = 0
      rw [List.count_append]
      have h2 : ([Ev.create (pipelineRun sdir true inputs fs0).router.nextChan k]).count
          (Ev.close (pipelineRun sdir true inputs fs0).router.nextChan) = 0 := by
        simp
      rw [h2, Nat.add_zero]
      exact hcc
    · rw [hroute]
      exact lookupKey_append_new hk _
  · exact ⟨by decide, by decide⟩

/-- Witness for C10 at a concrete run: with no intake items the mix router
closes an empty map; routing the fresh key q afterwards yields channel 0,
open and never closed. -/
theorem route_after_close_new_stream_witness :
    lookupKey (pipelineRun "d" true [] []).router.routes "q" = none ∧
    closedCount ((pipelineRun "d" true [] []).router.route "q").2.events
      (pipelineRun "d" true [] []).router.nextChan = 0 :=
  ⟨by decide,
    ((route_after_close_new_stream "d" [] [] "q" (by decide)).1).2.2.1⟩

theorem string_append_right_cancel (a b c : String) (h : a ++ c = b ++ c) : a = b := by
  apply String.ext
  have h2 := congrArg String.data h
  simp only [String.data_append] at h2
  exact List.append_cancel_right h2

theorem string_append_left_cancel (a b c : String) (h : a ++ b = a ++ c) : b = c := by
  apply String.ext
  have h2 := congrArg String.data h
  simp only [String.data_append] at h2
  exact List.append_cancel_left h2

theorem soundPath_ne_assetUrl (sdir f : String)
    (h : sdir ≠ "http://bbcsfx.acropolis.org.uk/assets") :
    soundPath sdir f ≠ assetUrl f := by
  intro he
  apply h
  have h1 : (sdir ++ "/") ++ f = ("http://bbcsfx.acropolis.org.uk/assets" ++ "/") ++ f := by
    rw [show ("http://bbcsfx.acropolis.org.uk/assets" ++ "/" : String)
        = "http://bbcsfx.acropolis.org.uk/assets/" from rfl]
    exact he
  exact string_append_right_cancel sdir _ "/" (string_append_right_cancel _ _ f h1)

theorem previewLine_distinct (s : sound) (h : s.fpath ≠ assetUrl s.fname) :
    s.descr ++ " " ++ s.fpath ≠ s.descr ++ " " ++ assetUrl s.fname := by
  intro he
  exact h (string_append_left_cancel (s.descr ++ " ") _ _ he)

theorem queryDatabase_mem {sdir q : String} {rows : List row} {s : sound}
    (hs : s ∈ queryDatabase sdir q rows) :
    s.fpath = soundPath sdir s.fname ∧ s.query = q := by
  simp only [queryDatabase, List.mem_map] at hs
  obtain ⟨r, hr, he⟩ := hs
  rw [← he]
  exact ⟨rfl, rfl⟩

theorem runPreview_length (sdir : String) (queries : List String)
    (rowsFor : String → List row) (present : String → Bool) :
    (runPreview sdir queries rowsFor present).length
      = (queries.map (fun q => (rowsFor q).length)).sum := by
  induction queries with
  | nil => rfl
  | cons q qs ih =>
    simp only [runPreview, List.flatMap_cons, List.length_append, List.map_cons,
      List.sum_cons, List.length_map] at ih ⊢
    rw [ih]
    simp [queryDatabase]

/-- Counterexample to claim C4 as stated: an item whose cache existence
check fails with a stat error other than not-exist is NOT treated as a
miss and fetched; the downloader drops it.  Concretely: one item, oracle
with a stat error and a fetch that would succeed, empty cache; the item is
dropped on the stat error, the filesystem stays empty (so the fetch was
never attempted although it would have succeeded) and nothing reaches any
stream. -/
theorem cache_stat_error_counterexample :
    (pipelineRun "d" true [(⟨"x", "f", "d/f", "q", 1⟩, ⟨true, FetchResult.ok⟩)] []).results
        = [ItemResult.droppedStat] ∧
    (pipelineRun "d" true [(⟨"x", "f", "d/f", "q", 1⟩, ⟨true, FetchResult.ok⟩)] []).fs = [] ∧
    sendsOf (pipelineRun "d" true
        [(⟨"x", "f", "d/f", "q", 1⟩, ⟨true, FetchResult.ok⟩)] []).router.events = [] :=
  ⟨by decide, by decide, by decide⟩

/-- Claim C4 amended: an item whose cache check returns false without an
error (the not-exist case) is treated as a miss and the fetch is attempted
with its outcome deciding the result; an item whose stat call fails with
any other error is logged and dropped without any fetch attempt: the
filesystem is untouched and nothing is delivered. -/
theorem cache_check_error_amended (sdir : String) (st : dlState) (s : sound) (o : Oracle) :
    (o.statErr = true →
      (downloadStep sdir st (s, o)).results = st.results ++ [ItemResult.droppedStat] ∧
      (downloadStep sdir st (s, o)).fs = st.fs ∧
      sendsOf (downloadStep sdir st (s, o)).router.events = sendsOf st.router.events) ∧
    (o.statErr = false → fsGet st.fs (soundPath sdir s.fname) = none →
      (downloadStep sdir st (s, o)).fs
        = (downloadFile st.fs (soundPath sdir s.fname) o.fetch).1 ∧
      (downloadStep sdir st (s, o)).results = st.results ++
        [if (downloadFile st.fs (soundPath sdir s.fname) o.fetch).2
          then ItemResult.droppedFetch else ItemResult.fetched]) := by
  constructor
  · intro h
    refine ⟨?_, ?_, ?_⟩ <;> simp [downloadStep, fileExists, h]
  · intro h hmiss
    constructor <;>
      · simp only [downloadStep, fileExists, h, hmiss]
        split_ifs <;> simp_all

/-- Witness for the amended C4: on an empty cache with no stat error the
fetch runs and its effect is exactly the downloadFile effect. -/
theorem cache_check_error_amended_witness :
    fsGet ([] : FS) (soundPath "d" "f") = none ∧
    (downloadStep "d" (pipelineInit true []) (⟨"x", "f", "d/f", "q", 1⟩,
        ⟨false, FetchResult.ok⟩)).fs
      = (downloadFile [] (soundPath "d" "f") FetchResult.ok).1 :=
  ⟨by decide,
    ((cache_check_error_amended "d" (pipelineInit true []) ⟨"x", "f", "d/f", "q", 1⟩
        ⟨false, FetchResult.ok⟩).2 rfl (by decide)).1⟩

/-- Counterexample to claim C6 as stated: the fetch write is not atomic.
Concretely: the first fetch of file f fails mid copy and leaves a half
written file at the final cache path; when the same file name comes up
again the existence check reports it present, the item is treated as
cached and forwarded to a stream, so a half written file is mistaken for a
complete cached payload. -/
theorem half_written_mistaken_counterexample :
    (pipelineRun "d" true [(⟨"x", "f", "d/f", "q", 1⟩, ⟨false, FetchResult.copyErr⟩),
        (⟨"x", "f", "d/f", "q", 1⟩, ⟨false, FetchResult.ok⟩)] []).results
      = [ItemResult.droppedFetch, ItemResult.cached] ∧
    fsGet (pipelineRun "d" true [(⟨"x", "f", "d/f", "q", 1⟩, ⟨false, FetchResult.copyErr⟩),
        (⟨"x", "f", "d/f", "q", 1⟩, ⟨false, FetchResult.ok⟩)] []).fs (soundPath "d" "f")
      = some FileState.halfWritten ∧
    sendsOf (pipelineRun "d" true [(⟨"x", "f", "d/f", "q", 1⟩, ⟨false, FetchResult.copyErr⟩),
        (⟨"x", "f", "d/f", "q", 1⟩, ⟨false, FetchResult.ok⟩)] []).router.events
      = [⟨"x", "f", "d/f", "q", 1⟩] :=
  ⟨by decide, by decide, by decide⟩

/-- Claim C6 amended: downloadFile writes straight to the final cache path
(create then copy, no temporary file and no rename), so a copy that fails
leaves a half written file there; the existence check is a bare presence
test that then reports such a file as present, and the downloader treats
the item as cached and forwards it. -/
theorem fetch_write_not_atomic_amended (fs : FS) (sp : String) (sdir : String)
    (st : dlState) (s : sound) (o : Oracle) :
    downloadFile fs sp FetchResult.copyErr = (fsSet fs sp FileState.halfWritten, true) ∧
    (fsGet fs sp = some FileState.halfWritten → fileExists fs false sp = (true, false)) ∧
    (o.statErr = false → fsGet st.fs (soundPath sdir s.fname) = some FileState.halfWritten →
      (downloadStep sdir st (s, o)).results = st.results ++ [ItemResult.cached] ∧
      sendsOf (downloadStep sdir st (s, o)).router.events
        = sendsOf st.router.events ++ [s]) := by
  refine ⟨rfl, ?_, ?_⟩
  · intro h
    simp [fileExists, h]
  · intro h1 h2
    have hres : stepRes sdir st.fs (s, o) = ItemResult.cached := by
      simp [stepRes, fileExists, h1, h2]
    constructor
    · rw [downloadStep_results, hres]
    · rw [downloadStep_sends, hres]
      rfl

/-- Witness for the amended C6: a concrete half written file is reported
present and its item is forwarded as cached. -/
theorem fetch_write_not_atomic_amended_witness :
    fsGet [("d/f", FileState.halfWritten)] (soundPath "d" "f")
        = some FileState.halfWritten ∧
    (downloadStep "d"
        { fs := [("d/f", FileState.halfWritten)],
          router := newMultiPlayersRouter, results := [] }
        (⟨"x", "f", "d/f", "q", 1⟩, ⟨false, FetchResult.ok⟩)).results
      = [ItemResult.cached] :=
  ⟨by decide,
    ((fetch_write_not_atomic_amended [] "" "d"
        { fs := [("d/f", FileState.halfWritten)],
          router := newMultiPlayersRouter, results := [] }
        ⟨"x", "f", "d/f", "q", 1⟩ ⟨false, FetchResult.ok⟩).2.2 rfl (by decide)).1⟩

/-- Counterexample to claim C7 as stated: the retrieval stage does not
attach the resolved local path.  Concretely: an item created with an empty
fpath field passes through the downloader on a cache hit and is delivered
with its fpath still empty, not the resolved path d/f; so the component
that attaches the path is not the retrieval stage (queryDatabase sets it
at creation). -/
theorem retrieval_attaches_path_counterexample :
    sendsOf (pipelineRun "d" false [(⟨"x", "f", "", "q", 0⟩, ⟨false, FetchResult.ok⟩)]
        [("d/f", FileState.complete)]).router.events = [⟨"x", "f", "", "q", 0⟩] ∧
    (⟨"x", "f", "", "q", 0⟩ : sound).fpath = "" ∧
    (⟨"x", "f", "", "q", 0⟩ : sound).fpath ≠ soundPath "d" "f" :=
  ⟨by decide, by decide, by decide⟩

/-- Claim C7 amended: no component mutates a catalog item after creation at
all: queryDatabase sets the query tag and the resolved local path when it
creates the item, and the downloader forwards each routed item exactly as
it was received (despite the source comment saying it fills the path). -/
theorem item_immutable_amended (sdir q : String) (rows : List row)
    (st : dlState) (inp : sound × Oracle) :
    (∀ s ∈ queryDatabase sdir q rows, s.fpath = soundPath sdir s.fname ∧ s.query = q) ∧
    (sendsOf (downloadStep sdir st inp).router.events
      = sendsOf st.router.events
        ++ (if isRouted (stepRes sdir st.fs inp) then [inp.1] else [])) := by
  exact ⟨fun s hs => queryDatabase_mem hs, downloadStep_sends sdir st inp⟩

/-- Claim C9: in the query-only branch of main the downloader is never
launched and no player stream exists; the run prints, for every item of
every query in order, the description followed by the resolved local path
when the file is present and the asset url otherwise (two line shapes that
never coincide when the sounds directory is not the asset root), prints
one line per row of every source before exiting, and exits 0. -/
theorem preview_mode_no_pipeline (cfg : config) (rowsFor : String → List row)
    (present : String → Bool) (intake : List (sound × Oracle)) (fs0 : FS)
    (hq : cfg.onlyQuery = true)
    (hsd : cfg.soundsDir ≠ "http://bbcsfx.acropolis.org.uk/assets") :
    (mainModel cfg rowsFor present intake fs0).retrievalStarted = false ∧
    (mainModel cfg rowsFor present intake fs0).streamsCreated = 0 ∧
    (mainModel cfg rowsFor present intake fs0).exitCode = 0 ∧
    (mainModel cfg rowsFor present intake fs0).finalState = none ∧
    (mainModel cfg rowsFor present intake fs0).output
      = runPreview cfg.soundsDir cfg.queries rowsFor present ∧
    (mainModel cfg rowsFor present intake fs0).output.length
      = (cfg.queries.map (fun q => (rowsFor q).length)).sum ∧
    (∀ q, q ∈ cfg.queries → ∀ s, s ∈ queryDatabase cfg.soundsDir q (rowsFor q) →
      (present s.fpath = true → previewLine present s = s.descr ++ " " ++ s.fpath) ∧
      (present s.fpath = false →
        previewLine present s = s.descr ++ " " ++ assetUrl s.fname) ∧
      s.descr ++ " " ++ s.fpath ≠ s.descr ++ " " ++ assetUrl s.fname) := by
  have hm : mainModel cfg rowsFor present intake fs0
      = { output := runPreview cfg.soundsDir cfg.queries rowsFor present,
          exitCode := 0, retrievalStarted := false, streamsCreated := 0,
          finalState := none } := by
    simp [mainModel, hq]
  refine ⟨by rw [hm], by rw [hm], by rw [hm], by rw [hm], by rw [hm], ?_, ?_⟩
  · rw [hm]
    exact runPreview_length cfg.soundsDir cfg.queries rowsFor present
  · intro q hqm s hs
    refine ⟨fun h => by simp [previewLine, h], fun h => by simp [previewLine, h], ?_⟩
    refine previewLine_distinct s ?_
    rw [(queryDatabase_mem hs).1]
    exact soundPath_ne_assetUrl _ _ hsd

/-- Witness for C9 at a concrete configuration: one query, one row, file
absent; the preview branch runs, the retrieval stage never starts and the
one printed line is the description plus the asset url. -/
theorem preview_mode_no_pipeline_witness :
    ({ soundsDir := "d", onlyQuery := true, mix := false,
        queries := ["q"] } : config).onlyQuery = true ∧
    (mainModel { soundsDir := "d", onlyQuery := true, mix := false, queries := ["q"] }
      (fun _ => [⟨"f", "x", 1⟩]) (fun _ => false) [] []).retrievalStarted = false :=
  ⟨rfl, (preview_mode_no_pipeline
      { soundsDir := "d", onlyQuery := true, mix := false, queries := ["q"] }
      (fun _ => [⟨"f", "x", 1⟩]) (fun _ => false) [] [] rfl (by decide)).1⟩

/-- Witness for the amended C7: a concrete row turns into an item whose
path is already resolved at creation. -/
theorem item_immutable_amended_witness :
    (⟨"x", "f", "d/f", "q", 1⟩ : sound) ∈ queryDatabase "d" "q" [⟨"f", "x", 1⟩] ∧
    (⟨"x", "f", "d/f", "q", 1⟩ : sound).fpath
      = soundPath "d" (⟨"x", "f", "d/f", "q", 1⟩ : sound).fname :=
  ⟨by decide,
    ((item_immutable_amended "d" "q" [⟨"f", "x", 1⟩] (pipelineInit true [])
        (⟨"x", "f", "d/f", "q", 1⟩, ⟨false, FetchResult.ok⟩)).1
      ⟨"x", "f", "d/f", "q", 1⟩ (by decide)).1⟩

/-!
Sequential mode as a small step system.  In sequential mode the inquirer
goroutine runs the queries one after another and sends each row over the
unbuffered intake channel; the downloader receives an item at the channel
rendezvous, resolves it (cache check, fetch) and queues it on the player
channel before it can return to the receive.  A state holds the remaining
producer work, the downloader phase and the trace of events; a step is one
action of either goroutine, so the reachable traces are exactly the
interleavings the Go scheduler can produce for this topology.
-/

/-- Events of a sequential run: a catalog query begins (stmt.Query for the
next term is issued), an item enters the shared intake (the send completes
at the unbuffered channel rendezvous), the retrieval of an item completes
successfully, and a resolved item is queued on the player stream. -/
inductive Ev5 where
  | queryBegin (t : String)
  | enter (s : sound)
  | retrieved (s : sound)
  | queued (s : sound)
deriving DecidableEq

/-- The per query work of the producer: each block is a term together with
the rows its query returns, each row paired with whether its retrieval
will succeed. -/
abbrev Blocks := List (String × List (sound × Bool))

/-- Remaining work of the sequential inquirer: about to issue the next
query, sending the rows of the current query, or finished. -/
inductive Prod5 where
  | ready (rem : Blocks)
  | sending (t : String) (pending : List (sound × Bool)) (rem : Blocks)
  | done
deriving DecidableEq

/-- Phase of the downloader between rendezvous: waiting at the receive,
resolving the item just received, or about to queue the resolved item. -/
inductive Dl5 where
  | idle
  | resolving (s : sound) (ok : Bool)
  | queueing (s : sound)
deriving DecidableEq

/-- State of the sequential pipeline. -/
structure St5 where
  prod : Prod5
  dl : Dl5
  tr : List Ev5
deriving DecidableEq

def init5 (blocks : Blocks) : St5 :=
  ⟨Prod5.ready blocks, Dl5.idle, []⟩

/-- One scheduler step of the sequential pipeline.  The producer can begin
its next query, finish a block, or finish entirely; a rendezvous hands the
next row to the idle downloader; the downloader resolves and then queues
the item (or drops it on failure) before becoming idle again. -/
inductive Step5 : St5 → St5 → Prop where
  | qbegin (t : String) (items : List (sound × Bool)) (rem : Blocks)
      (dl : Dl5) (tr : List Ev5) :
      Step5 ⟨Prod5.ready ((t, items) :: rem), dl, tr⟩
            ⟨Prod5.sending t items rem, dl, tr ++ [Ev5.queryBegin t]⟩
  | blockDone (t : String) (rem : Blocks) (dl : Dl5) (tr : List Ev5) :
      Step5 ⟨Prod5.sending t [] rem, dl, tr⟩ ⟨Prod5.ready rem, dl, tr⟩
  | allDone (dl : Dl5) (tr : List Ev5) :
      Step5 ⟨Prod5.ready [], dl, tr⟩ ⟨Prod5.done, dl, tr⟩
  | rendezvous (t : String) (s : sound) (ok : Bool)
      (pending : List (sound × Bool)) (rem : Blocks) (tr : List Ev5) :
      Step5 ⟨Prod5.sending t ((s, ok) :: pending) rem, Dl5.idle, tr⟩
            ⟨Prod5.sending t pending rem, Dl5.resolving s ok, tr ++ [Ev5.enter s]⟩
  | resolveOk (p : Prod5) (s : sound) (tr : List Ev5) :
      Step5 ⟨p, Dl5.resolving s true, tr⟩ ⟨p, Dl5.queueing s, tr ++ [Ev5.retrieved s]⟩
  | resolveFail (p : Prod5) (s : sound) (tr : List Ev5) :
      Step5 ⟨p, Dl5.resolving s false, tr⟩ ⟨p, Dl5.idle, tr⟩
  | enqueue (p : Prod5) (s : sound) (tr : List Ev5) :
      Step5 ⟨p, Dl5.queueing s, tr⟩ ⟨p, Dl5.idle, tr ++ [Ev5.queued s]⟩

/-- Reachable states of the sequential pipeline started on blocks. -/
def Reach5 (blocks : Blocks) (st : St5) : Prop :=
  Relation.ReflTransGen Step5 (init5 blocks) st

/-- Every row of every block is tagged with the term of its block, as
queryDatabase guarantees. -/
abbrev Tagged (blocks : Blocks) : Prop :=
  ∀ pr ∈ blocks, ∀ it ∈ pr.2, (it : sound × Bool).1.query = pr.1

/-- Position of a query term in the term list. -/
def termIdx (terms : List String) (q : String) : Nat :=
  terms.indexOf q

/-- Items that have entered the intake, in entry order. -/
def entered5 (tr : List Ev5) : List sound :=
  tr.filterMap fun e =>
    match e with
    | .enter s => some s
    | _ => none

/-- How far the producer has come, as a block index bound: every item
entered so far comes from a block strictly below the frontier. -/
def frontier (blocks : Blocks) : Prod5 → Nat
  | .ready rem => blocks.length - rem.length
  | .sending _ _ rem => blocks.length - rem.length
  | .done => blocks.length

/-- Shape of the producer state relative to the original blocks. -/
def ProdWF (blocks : Blocks) : Prod5 → Prop
  | .ready rem => rem = blocks.drop (blocks.length - rem.length)
      ∧ rem.length ≤ blocks.length
  | .sending t pending rem => ∃ items,
      blocks[blocks.length - rem.length - 1]? = some (t, items)
      ∧ (∀ p ∈ pending, p ∈ items)
      ∧ rem = blocks.drop (blocks.length - rem.length)
      ∧ rem.length < blocks.length
  | .done => True

/-- A busy downloader holds exactly the most recently entered item. -/
def DlLast : Dl5 → List Ev5 → Prop
  | .idle, _ => True
  | .resolving s _, tr => ∃ l, entered5 tr = l ++ [s]
  | .queueing s, tr => ∃ l, entered5 tr = l ++ [s]

theorem indexOf_of_getElem? {l : List String} (hnd : l.Nodup) {k : Nat} {t : String}
    (h : l[k]? = some t) : l.indexOf t = k := by
  obtain ⟨hk, he⟩ := List.getElem?_eq_some_iff.1 h
  rw [← he]
  exact List.indexOf_getElem hnd k hk

theorem entered5_append (a b : List Ev5) :
    entered5 (a ++ b) = entered5 a ++ entered5 b :=
  List.filterMap_append a b _

theorem entered5_queryBegin (t : String) : entered5 [Ev5.queryBegin t] = [] := rfl

theorem entered5_enter (s : sound) : entered5 [Ev5.enter s] = [s] := rfl

theorem entered5_retrieved (s : sound) : entered5 [Ev5.retrieved s] = [] := rfl

theorem entered5_queued (s : sound) : entered5 [Ev5.queued s] = [] := rfl

theorem mem_entered5 {tr : List Ev5} {s : sound} : s ∈ entered5 tr ↔ Ev5.enter s ∈ tr := by
  constructor
  · intro h
    obtain ⟨e, he, hf⟩ := List.mem_filterMap.1 h
    cases e with
    | enter s2 =>
      simp at hf
      rw [← hf]
      exact he
    | queryBegin t => simp at hf
    | retrieved s2 => simp at hf
    | queued s2 => simp at hf
  · intro h
    exact List.mem_filterMap.2 ⟨_, h, rfl⟩

theorem getElem?_concat_cases {α : Type _} {tr : List α} {e x : α} {p : Nat}
    (h : (tr ++ [e])[p]? = some x) :
    (p < tr.length ∧ tr[p]? = some x) ∨ (p = tr.length ∧ x = e) := by
  by_cases hp : p < tr.length
  · left
    refine ⟨hp, ?_⟩
    rwa [List.getElem?_append_left hp] at h
  · right
    push_neg at hp
    rw [List.getElem?_append_right hp] at h
    cases hpe : p - tr.length with
    | zero =>
      rw [hpe] at h
      simp at h
      exact ⟨by omega, h.symm⟩
    | succ n =>
      rw [hpe] at h
      simp at h

theorem termIdx_of_block {blocks : Blocks} (hnd : (blocks.map Prod.fst).Nodup)
    {k : Nat} {t : String} {items : List (sound × Bool)}
    (h : blocks[k]? = some (t, items)) : termIdx (blocks.map Prod.fst) t = k := by
  apply indexOf_of_getElem? hnd
  rw [List.getElem?_map, h]
  rfl

theorem tagged_item {blocks : Blocks} (htag : Tagged blocks) {k : Nat} {t : String}
    {items : List (sound × Bool)} (h : blocks[k]? = some (t, items))
    {it : sound × Bool} (hit : it ∈ items) : it.1.query = t :=
  htag (t, items) (List.getElem?_mem h) it hit

theorem prodWF_ready_head {blocks : Blocks} {t : String} {items : List (sound × Bool)}
    {rem : Blocks} (h : ProdWF blocks (Prod5.ready ((t, items) :: rem))) :
    blocks[blocks.length - rem.length - 1]? = some (t, items)
      ∧ rem = blocks.drop (blocks.length - rem.length)
      ∧ rem.length < blocks.length := by
  obtain ⟨hdrop, hlen⟩ := h
  simp only [List.length_cons] at hdrop hlen
  have hk : blocks.length - (rem.length + 1) = blocks.length - rem.length - 1 := by omega
  rw [hk] at hdrop
  have hkN : blocks.length - rem.length - 1 < blocks.length := by omega
  rw [List.drop_eq_getElem_cons hkN] at hdrop
  have h1 : (t, items) = blocks[blocks.length - rem.length - 1]
      ∧ rem = blocks.drop (blocks.length - rem.length - 1 + 1) := by
    have h2 := List.cons.injEq (t, items) rem
      (blocks[blocks.length - rem.length - 1]) (blocks.drop (blocks.length - rem.length - 1 + 1))
    rw [h2] at hdrop
    exact hdrop
  refine ⟨List.getElem?_eq_some_iff.2 ⟨hkN, h1.1.symm⟩, ?_, by omega⟩
  have hidx : blocks.length - rem.length = blocks.length - rem.length - 1 + 1 := by omega
  rw [hidx]
  exact h1.2

/-- Invariant of every reachable state of the sequential pipeline: the
producer state is a consistent residue of the blocks, every entered item
is from a block below the frontier, the entered items are in block order,
a busy downloader holds the most recently entered item, every query that
has begun is below the frontier, every queued event of an earlier block
precedes every enter event of a later block, and every enter event of an
earlier block precedes every queryBegin of a later block. -/
structure Inv5 (blocks : Blocks) (st : St5) : Prop where
  prodWF : ProdWF blocks st.prod
  enterBound : ∀ s ∈ entered5 st.tr,
      termIdx (blocks.map Prod.fst) s.query < frontier blocks st.prod
  enterMono : List.Pairwise
      (fun a b => termIdx (blocks.map Prod.fst) a.query
        ≤ termIdx (blocks.map Prod.fst) b.query) (entered5 st.tr)
  dlLast : DlLast st.dl st.tr
  qbBound : ∀ t, Ev5.queryBegin t ∈ st.tr →
      termIdx (blocks.map Prod.fst) t < frontier blocks st.prod
  queuedBeforeEnter : ∀ (p q : Nat) (x y : sound),
      st.tr[p]? = some (Ev5.queued x) → st.tr[q]? = some (Ev5.enter y) →
      termIdx (blocks.map Prod.fst) x.query < termIdx (blocks.map Prod.fst) y.query →
      p < q
  enterBeforeQB : ∀ (p q : Nat) (t : String) (y : sound),
      st.tr[p]? = some (Ev5.queryBegin t) → st.tr[q]? = some (Ev5.enter y) →
      termIdx (blocks.map Prod.fst) y.query < termIdx (blocks.map Prod.fst) t →
      q < p

theorem inv5_init (blocks : Blocks) : Inv5 blocks (init5 blocks) := by
  refine ⟨⟨by simp, Nat.le_refl _⟩, ?_, ?_, trivial, ?_, ?_, ?_⟩
  · intro s hs
    simp [init5, entered5] at hs
  · simp [init5, entered5]
  · intro t ht
    simp [init5] at ht
  · intro p q x y hp hq hlt
    simp [init5] at hp
  · intro p q t y hp hq hlt
    simp [init5] at hp

theorem inv5_step {blocks : Blocks} (hnd : (blocks.map Prod.fst).Nodup)
    (htag : Tagged blocks) {st st' : St5} (hstep : Step5 st st') (hinv : Inv5 blocks st) :
    Inv5 blocks st' := by
  cases hstep with
  | qbegin t items rem dl tr =>
    obtain ⟨hk, hrem, hlt⟩ := prodWF_ready_head hinv.prodWF
    have htk : termIdx (blocks.map Prod.fst) t = blocks.length - rem.length - 1 :=
      termIdx_of_block hnd hk
    refine ⟨⟨items, hk, fun p hp => hp, hrem, hlt⟩, ?_, ?_, ?_, ?_, ?_, ?_⟩
    · intro s hs
      rw [entered5_append, entered5_queryBegin, List.append_nil] at hs
      have h1 := hinv.enterBound s hs
      simp only [frontier, List.length_cons] at h1 ⊢
      omega
    · rw [entered5_append, entered5_queryBegin, List.append_nil]
      exact hinv.enterMono
    · show DlLast dl (tr ++ [Ev5.queryBegin t])
      cases dl with
      | idle => trivial
      | resolving s2 ok2 =>
        obtain ⟨l, hl⟩ := hinv.dlLast
        exact ⟨l, by rw [entered5_append, entered5_queryBegin, List.append_nil]; exact hl⟩
      | queueing s2 =>
        obtain ⟨l, hl⟩ := hinv.dlLast
        exact ⟨l, by rw [entered5_append, entered5_queryBegin, List.append_nil]; exact hl⟩
    · intro t2 ht2
      rcases List.mem_append.1 ht2 with hx | hx
      · have h1 := hinv.qbBound t2 hx
        simp only [frontier, List.length_cons] at h1 ⊢
        omega
      · simp at hx
        subst hx
        simp only [frontier]
        rw [htk]
        omega
    · intro p q x y hp hq hlt2
      rcases getElem?_concat_cases hp with ⟨hp1, hp2⟩ | ⟨hp1, hp2⟩
      · rcases getElem?_concat_cases hq with ⟨hq1, hq2⟩ | ⟨hq1, hq2⟩
        · exact hinv.queuedBeforeEnter p q x y hp2 hq2 hlt2
        · simp at hq2
      · simp at hp2
    · intro p q t2 y hp hq hlt2
      rcases getElem?_concat_cases hp with ⟨hp1, hp2⟩ | ⟨hp1, hp2⟩
      · rcases getElem?_concat_cases hq with ⟨hq1, hq2⟩ | ⟨hq1, hq2⟩
        · exact hinv.enterBeforeQB p q t2 y hp2 hq2 hlt2
        · simp at hq2
      · rcases getElem?_concat_cases hq with ⟨hq1, hq2⟩ | ⟨hq1, hq2⟩
        · omega
        · simp at hq2
  | blockDone t rem dl tr =>
    obtain ⟨items, hk, hsub, hrem, hlt⟩ := hinv.prodWF
    refine ⟨⟨hrem, Nat.le_of_lt hlt⟩, ?_, hinv.enterMono, hinv.dlLast, ?_,
      hinv.queuedBeforeEnter, hinv.enterBeforeQB⟩
    · intro s hs
      have h1 := hinv.enterBound s hs
      simpa only [frontier] using h1
    · intro t2 ht2
      have h1 := hinv.qbBound t2 ht2
      simpa only [frontier] using h1
  | allDone dl tr =>
    refine ⟨trivial, ?_, hinv.enterMono, hinv.dlLast, ?_,
      hinv.queuedBeforeEnter, hinv.enterBeforeQB⟩
    · intro s hs
      have h1 := hinv.enterBound s hs
      simp only [frontier, List.length_nil] at h1 ⊢
      omega
    · intro t2 ht2
      have h1 := hinv.qbBound t2 ht2
      simp only [frontier, List.length_nil] at h1 ⊢
      omega
  | rendezvous t s ok pending rem tr =>
    obtain ⟨items, hk, hsub, hrem, hlt⟩ := hinv.prodWF
    have hsq : s.query = t := tagged_item htag hk (hsub (s, ok) (by simp))
    have hI : termIdx (blocks.map Prod.fst) s.query = blocks.length - rem.length - 1 := by
      rw [hsq]
      exact termIdx_of_block hnd hk
    refine ⟨⟨items, hk, fun p hp => hsub p (List.mem_cons_of_mem _ hp), hrem, hlt⟩,
      ?_, ?_, ?_, ?_, ?_, ?_⟩
    · intro y hy
      rw [entered5_append, entered5_enter] at hy
      rcases List.mem_append.1 hy with hx | hx
      · have h1 := hinv.enterBound y hx
        simpa only [frontier] using h1
      · simp at hx
        subst hx
        simp only [frontier]
        rw [hI]
        omega
    · rw [entered5_append, entered5_enter, List.pairwise_append]
      refine ⟨hinv.enterMono, by simp, ?_⟩
      intro a ha b hb
      simp at hb
      subst hb
      have h1 := hinv.enterBound a ha
      simp only [frontier] at h1
      rw [hI]
      omega
    · exact ⟨entered5 tr, by rw [entered5_append, entered5_enter]⟩
    · intro t2 ht2
      rcases List.mem_append.1 ht2 with hx | hx
      · have h1 := hinv.qbBound t2 hx
        simpa only [frontier] using h1
      · simp at hx
    · intro p q x y hp hq hlt2
      rcases getElem?_concat_cases hp with ⟨hp1, hp2⟩ | ⟨hp1, hp2⟩
      · rcases getElem?_concat_cases hq with ⟨hq1, hq2⟩ | ⟨hq1, hq2⟩
        · exact hinv.queuedBeforeEnter p q x y hp2 hq2 hlt2
        · omega
      · simp at hp2
    · intro p q t2 y hp hq hlt2
      rcases getElem?_concat_cases hp with ⟨hp1, hp2⟩ | ⟨hp1, hp2⟩
      · rcases getElem?_concat_cases hq with ⟨hq1, hq2⟩ | ⟨hq1, hq2⟩
        · exact hinv.enterBeforeQB p q t2 y hp2 hq2 hlt2
        · exfalso
          have hy2 : y = s := by
            injection hq2
          have h1 := hinv.qbBound t2 (List.getElem?_mem hp2)
          simp only [frontier] at h1
          rw [hy2, hI] at hlt2
          omega
      · simp at hp2
  | resolveOk p s tr =>
    refine ⟨hinv.prodWF, ?_, ?_, ?_, ?_, ?_, ?_⟩
    · intro y hy
      rw [entered5_append, entered5_retrieved, List.append_nil] at hy
      exact hinv.enterBound y hy
    · rw [entered5_append, entered5_retrieved, List.append_nil]
      exact hinv.enterMono
    · obtain ⟨l, hl⟩ := hinv.dlLast
      exact ⟨l, by rw [entered5_append, entered5_retrieved, List.append_nil]; exact hl⟩
    · intro t2 ht2
      rcases List.mem_append.1 ht2 with hx | hx
      · exact hinv.qbBound t2 hx
      · simp at hx
    · intro p2 q2 x y hp hq hlt2
      rcases getElem?_concat_cases hp with ⟨hp1, hp2⟩ | ⟨hp1, hp2⟩
      · rcases getElem?_concat_cases hq with ⟨hq1, hq2⟩ | ⟨hq1, hq2⟩
        · exact hinv.queuedBeforeEnter p2 q2 x y hp2 hq2 hlt2
        · simp at hq2
      · simp at hp2
    · intro p2 q2 t2 y hp hq hlt2
      rcases getElem?_concat_cases hp with ⟨hp1, hp2⟩ | ⟨hp1, hp2⟩
      · rcases getElem?_concat_cases hq with ⟨hq1, hq2⟩ | ⟨hq1, hq2⟩
        · exact hinv.enterBeforeQB p2 q2 t2 y hp2 hq2 hlt2
        · simp at hq2
      · simp at hp2
  | resolveFail p s tr =>
    exact ⟨hinv.prodWF, hinv.enterBound, hinv.enterMono, trivial, hinv.qbBound,
      hinv.queuedBeforeEnter, hinv.enterBeforeQB⟩
  | enqueue p s tr =>
    refine ⟨hinv.prodWF, ?_, ?_, trivial, ?_, ?_, ?_⟩
    · intro y hy
      rw [entered5_append, entered5_queued, List.append_nil] at hy
      exact hinv.enterBound y hy
    · rw [entered5_append, entered5_queued, List.append_nil]
      exact hinv.enterMono
    · intro t2 ht2
      rcases List.mem_append.1 ht2 with hx | hx
      · exact hinv.qbBound t2 hx
      · simp at hx
    · intro p2 q2 x y hp hq hlt2
      rcases getElem?_concat_cases hq with ⟨hq1, hq2⟩ | ⟨hq1, hq2⟩
      · rcases getElem?_concat_cases hp with ⟨hp1, hp2⟩ | ⟨hp1, hp2⟩
        · exact hinv.queuedBeforeEnter p2 q2 x y hp2 hq2 hlt2
        · exfalso
          have hx2 : x = s := by
            injection hp2
          obtain ⟨l, hl⟩ := hinv.dlLast
          have hymem : y ∈ entered5 tr := mem_entered5.2 (List.getElem?_mem hq2)
          rw [hl] at hymem
          have hmono := hinv.enterMono
          rw [hl, List.pairwise_append] at hmono
          rcases List.mem_append.1 hymem with hy1 | hy2
          · have h3 := hmono.2.2 y hy1 s (by simp)
            rw [hx2] at hlt2
            omega
          · simp at hy2
            rw [hx2, hy2] at hlt2
            omega
      · simp at hq2
    · intro p2 q2 t2 y hp hq hlt2
      rcases getElem?_concat_cases hp with ⟨hp1, hp2⟩ | ⟨hp1, hp2⟩
      · rcases getElem?_concat_cases hq with ⟨hq1, hq2⟩ | ⟨hq1, hq2⟩
        · exact hinv.enterBeforeQB p2 q2 t2 y hp2 hq2 hlt2
        · simp at hq2
      · simp at hp2

theorem inv5_reach {blocks : Blocks} (hnd : (blocks.map Prod.fst).Nodup)
    (htag : Tagged blocks) {st : St5} (hr : Reach5 blocks st) : Inv5 blocks st := by
  induction hr with
  | refl => exact inv5_init blocks
  | tail hsub hstep ih => exact inv5_step hnd htag hstep ih

/-- Claim C5 amended: in sequential mode, for distinct terms with the term
of block a given before the term of block b, in every reachable state of
every schedule (1) every queued event of an item tagged with the earlier
term precedes every enter event of an item tagged with the later term:
items of the earlier term are fully retrieved and queued before any item
of the later term enters the shared intake; and (2) the later query begins
only after every item of the earlier term has entered the intake.  The
original additional claim that the earlier items are also fully retrieved
before the later catalog query even begins is refuted separately: the
final send of the earlier term completes at the rendezvous, and its
retrieval then overlaps the next query. -/
theorem sequential_ordering_amended (blocks : Blocks)
    (hnd : (blocks.map Prod.fst).Nodup) (htag : Tagged blocks)
    (st : St5) (hr : Reach5 blocks st)
    (a b : Nat) (ta tb : String) (itemsA itemsB : List (sound × Bool))
    (hA : blocks[a]? = some (ta, itemsA)) (hB : blocks[b]? = some (tb, itemsB))
    (hab : a < b) (x y : sound) (hx : x.query = ta) (hy : y.query = tb)
    (p q : Nat) :
    (st.tr[p]? = some (Ev5.queued x) → st.tr[q]? = some (Ev5.enter y) → p < q) ∧
    (st.tr[p]? = some (Ev5.queryBegin tb) → st.tr[q]? = some (Ev5.enter x) → q < p) := by
  have hinv := inv5_reach hnd htag hr
  have hIx : termIdx (blocks.map Prod.fst) x.query = a := by
    rw [hx]
    exact termIdx_of_block hnd hA
  have hIy : termIdx (blocks.map Prod.fst) y.query = b := by
    rw [hy]
    exact termIdx_of_block hnd hB
  have hItb : termIdx (blocks.map Prod.fst) tb = b := termIdx_of_block hnd hB
  constructor
  · intro hp hq
    exact hinv.queuedBeforeEnter p q x y hp hq (by rw [hIx, hIy]; exact hab)
  · intro hp hq
    exact hinv.enterBeforeQB p q tb x hp hq (by rw [hIx, hItb]; exact hab)

def s51 : sound := ⟨"x1", "f1", "p1", "T1", 1⟩

def s52 : sound := ⟨"x2", "f2", "p2", "T2", 1⟩

def blocks5 : Blocks := [("T1", [(s51, true)]), ("T2", [(s52, true)])]

/-- A completed schedule in which the second query begins while the
downloader is still retrieving the last item of the first term. -/
def stBad : St5 :=
  ⟨Prod5.done, Dl5.idle,
    [Ev5.queryBegin "T1", Ev5.enter s51, Ev5.queryBegin "T2", Ev5.retrieved s51,
     Ev5.queued s51, Ev5.enter s52, Ev5.retrieved s52, Ev5.queued s52]⟩

/-- A completed schedule in which the downloader keeps ahead of the
producer. -/
def stGood : St5 :=
  ⟨Prod5.done, Dl5.idle,
    [Ev5.queryBegin "T1", Ev5.enter s51, Ev5.retrieved s51, Ev5.queued s51,
     Ev5.queryBegin "T2", Ev5.enter s52, Ev5.retrieved s52, Ev5.queued s52]⟩

theorem reach_stBad : Reach5 blocks5 stBad := by
  have r1 := (Relation.ReflTransGen.refl (a := init5 blocks5)).tail
    (Step5.qbegin "T1" [(s51, true)] [("T2", [(s52, true)])] Dl5.idle [])
  have r2 := r1.tail
    (Step5.rendezvous "T1" s51 true [] [("T2", [(s52, true)])] [Ev5.queryBegin "T1"])
  have r3 := r2.tail
    (Step5.blockDone "T1" [("T2", [(s52, true)])] (Dl5.resolving s51 true)
      [Ev5.queryBegin "T1", Ev5.enter s51])
  have r4 := r3.tail
    (Step5.qbegin "T2" [(s52, true)] [] (Dl5.resolving s51 true)
      [Ev5.queryBegin "T1", Ev5.enter s51])
  have r5 := r4.tail
    (Step5.resolveOk (Prod5.sending "T2" [(s52, true)] []) s51
      [Ev5.queryBegin "T1", Ev5.enter s51, Ev5.queryBegin "T2"])
  have r6 := r5.tail
    (Step5.enqueue (Prod5.sending "T2" [(s52, true)] []) s51
      [Ev5.queryBegin "T1", Ev5.enter s51, Ev5.queryBegin "T2", Ev5.retrieved s51])
  have r7 := r6.tail
    (Step5.rendezvous "T2" s52 true [] []
      [Ev5.queryBegin "T1", Ev5.enter s51, Ev5.queryBegin "T2", Ev5.retrieved s51,
       Ev5.queued s51])
  have r8 := r7.tail
    (Step5.resolveOk (Prod5.sending "T2" [] []) s52
      [Ev5.queryBegin "T1", Ev5.enter s51, Ev5.queryBegin "T2", Ev5.retrieved s51,
       Ev5.queued s51, Ev5.enter s52])
  have r9 := r8.tail
    (Step5.enqueue (Prod5.sending "T2" [] []) s52
      [Ev5.queryBegin "T1", Ev5.enter s51, Ev5.queryBegin "T2", Ev5.retrieved s51,
       Ev5.queued s51, Ev5.enter s52, Ev5.retrieved s52])
  have r10 := r9.tail
    (Step5.blockDone "T2" [] Dl5.idle
      [Ev5.queryBegin "T1", Ev5.enter s51, Ev5.queryBegin "T2", Ev5.retrieved s51,
       Ev5.queued s51, Ev5.enter s52, Ev5.retrieved s52, Ev5.queued s52])
  have r11 := r10.tail
    (Step5.allDone Dl5.idle
      [Ev5.queryBegin "T1", Ev5.enter s51, Ev5.queryBegin "T2", Ev5.retrieved s51,
       Ev5.queued s51, Ev5.enter s52, Ev5.retrieved s52, Ev5.queued s52])
  exact r11

theorem reach_stGood : Reach5 blocks5 stGood := by
  have r1 := (Relation.ReflTransGen.refl (a := init5 blocks5)).tail
    (Step5.qbegin "T1" [(s51, true)] [("T2", [(s52, true)])] Dl5.idle [])
  have r2 := r1.tail
    (Step5.rendezvous "T1" s51 true [] [("T2", [(s52, true)])] [Ev5.queryBegin "T1"])
  have r3 := r2.tail
    (Step5.resolveOk (Prod5.sending "T1" [] [("T2", [(s52, true)])]) s51
      [Ev5.queryBegin "T1", Ev5.enter s51])
  have r4 := r3.tail
    (Step5.enqueue (Prod5.sending "T1" [] [("T2", [(s52, true)])]) s51
      [Ev5.queryBegin "T1", Ev5.enter s51, Ev5.retrieved s51])
  have r5 := r4.tail
    (Step5.blockDone "T1" [("T2", [(s52, true)])] Dl5.idle
      [Ev5.queryBegin "T1", Ev5.enter s51, Ev5.retrieved s51, Ev5.queued s51])
  have r6 := r5.tail
    (Step5.qbegin "T2" [(s52, true)] [] Dl5.idle
      [Ev5.queryBegin "T1", Ev5.enter s51, Ev5.retrieved s51, Ev5.queued s51])
  have r7 := r6.tail
    (Step5.rendezvous "T2" s52 true [] []
      [Ev5.queryBegin "T1", Ev5.enter s51, Ev5.retrieved s51, Ev5.queued s51,
       Ev5.queryBegin "T2"])
  have r8 := r7.tail
    (Step5.resolveOk (Prod5.sending "T2" [] []) s52
      [Ev5.queryBegin "T1", Ev5.enter s51, Ev5.retrieved s51, Ev5.queued s51,
       Ev5.queryBegin "T2", Ev5.enter s52])
  have r9 := r8.tail
    (Step5.enqueue (Prod5.sending "T2" [] []) s52
      [Ev5.queryBegin "T1", Ev5.enter s51, Ev5.retrieved s51, Ev5.queued s51,
       Ev5.queryBegin "T2", Ev5.enter s52, Ev5.retrieved s52])
  have r10 := r9.tail
    (Step5.blockDone "T2" [] Dl5.idle
      [Ev5.queryBegin "T1", Ev5.enter s51, Ev5.retrieved s51, Ev5.queued s51,
       Ev5.queryBegin "T2", Ev5.enter s52, Ev5.retrieved s52, Ev5.queued s52])
  have r11 := r10.tail
    (Step5.allDone Dl5.idle
      [Ev5.queryBegin "T1", Ev5.enter s51, Ev5.retrieved s51, Ev5.queued s51,
       Ev5.queryBegin "T2", Ev5.enter s52, Ev5.retrieved s52, Ev5.queued s52])
  exact r11

/-- Counterexample to claim C5 as stated: it is not true that in every
completed sequential run every item of the first term is fully retrieved
before the catalog query of the second term begins.  In the exhibited
reachable completed run the second query begins at trace position 2 while
the retrieval of the only item of the first term completes at position 3:
the producer returns from its last send at the rendezvous and starts the
next query while the downloader is still resolving that item. -/
theorem sequential_query_begin_counterexample :
    ¬ (∀ st : St5, Reach5 blocks5 st → st.prod = Prod5.done →
        ∀ (p q : Nat), st.tr[p]? = some (Ev5.retrieved s51) →
          st.tr[q]? = some (Ev5.queryBegin "T2") → p < q) := by
  intro h
  have h2 := h stBad reach_stBad rfl 3 2 (by decide) (by decide)
  omega

/-- Witness for the amended C5 on the in-order schedule: queued s51 at
position 3 precedes enter s52 at position 5, and enter s51 at position 1
precedes queryBegin T2 at position 4. -/
theorem sequential_ordering_amended_witness :
    (stGood.tr[3]? = some (Ev5.queued s51) ∧ stGood.tr[5]? = some (Ev5.enter s52)
      ∧ 3 < 5) ∧
    (stGood.tr[4]? = some (Ev5.queryBegin "T2") ∧ stGood.tr[1]? = some (Ev5.enter s51)
      ∧ 1 < 4) := by
  refine ⟨⟨by decide, by decide, ?_⟩, ⟨by decide, by decide, ?_⟩⟩
  · exact (sequential_ordering_amended blocks5 (by decide) (by decide) stGood reach_stGood
      0 1 "T1" "T2" [(s51, true)] [(s52, true)] (by decide) (by decide) (by decide)
      s51 s52 rfl rfl 3 5).1 (by decide) (by decide)
  · exact (sequential_ordering_amended blocks5 (by decide) (by decide) stGood reach_stGood
      0 1 "T1" "T2" [(s51, true)] [(s52, true)] (by decide) (by decide) (by decide)
      s51 s52 rfl rfl 4 1).2 (by decide) (by decide)

end Thames
